import Mathlib

/-!
Verification development for grove, a terminal note-taking application.

Strings are modelled as `List Char` (`Str`); Go timestamps as `DateTime`,
a UTC civil datetime at second precision (Go's sub-second precision and
location data are not exercised by the properties below).  The notes
directory is modelled as an association list from file path to entry
(`FS`); an entry carries a `readable` flag standing for the possibility
of an I/O failure on that particular file.
-/

namespace Grove

abbrev Str := List Char

/-! ## String helpers (Go `strings` package operations used by the code) -/

/-- Go `unicode.IsSpace` restricted to ASCII whitespace. -/
def isSpaceChar (c : Char) : Bool :=
  c = ' ' || c = '\t' || c = '\n' || c = '\x0B' || c = '\x0C' || c = '\r'

/-- Trim characters satisfying `p` from the left. -/
def trimLeftWhile (p : Char → Bool) (s : Str) : Str := s.dropWhile p

/-- Trim characters satisfying `p` from the right. -/
def trimRightWhile (p : Char → Bool) (s : Str) : Str := (s.reverse.dropWhile p).reverse

/-- Go `strings.TrimSpace`. -/
def trimSpace (s : Str) : Str := trimRightWhile isSpaceChar (trimLeftWhile isSpaceChar s)

/-- Go `strings.Trim(s, cutset)`. -/
def trimCut (cutset : Str) (s : Str) : Str :=
  trimRightWhile (fun c => decide (c ∈ cutset)) (trimLeftWhile (fun c => decide (c ∈ cutset)) s)

/-- Go `strings.Split(s, sep)` for a one-character separator. -/
def splitChar (sep : Char) : Str → List Str
  | [] => [[]]
  | c :: rest =>
    if c = sep then [] :: splitChar sep rest
    else
      match splitChar sep rest with
      | [] => [[c]]
      | g :: gs => (c :: g) :: gs

/-- Go `strings.Index(s, pat)`: position of the first occurrence. -/
def indexOf? (pat : Str) : Str → Option Nat
  | [] => if pat = [] then some 0 else none
  | c :: rest => if pat.isPrefixOf (c :: rest) then some 0 else (indexOf? pat rest).map (· + 1)

/-- Go `strings.Join(elems, sep)`. -/
def joinSep (sep : Str) : List Str → Str
  | [] => []
  | [x] => x
  | x :: y :: rest => x ++ sep ++ joinSep sep (y :: rest)

/-- Go `strings.ReplaceAll(s, "\r\n", "\n")`. -/
def normalizeCRLF : Str → Str
  | [] => []
  | [c] => [c]
  | c :: d :: rest =>
    if c = '\r' ∧ d = '\n' then '\n' :: normalizeCRLF rest
    else c :: normalizeCRLF (d :: rest)

/-- Go `strings.HasSuffix`. -/
def hasSuffix (s suf : Str) : Bool := suf.isSuffixOf s

/-- Go `strings.TrimSuffix` (removes one trailing copy when present). -/
def trimSuffixStr (s suf : Str) : Str :=
  if suf.isSuffixOf s then s.take (s.length - suf.length) else s

/-- Decimal rendering of a natural number (Go `fmt` `%d` on a non-negative value). -/
def natToChars (n : Nat) : Str := Nat.toDigits 10 n

/-! ## Timestamps -/

/-- A UTC civil datetime at second precision. -/
structure DateTime where
  year : Nat
  month : Nat
  day : Nat
  hour : Nat
  minute : Nat
  second : Nat
deriving DecidableEq

/-- A lexicographic encoding of the six fields; for in-range fields it orders
`DateTime`s exactly as instants in time. -/
def DateTime.key (t : DateTime) : Nat :=
  ((((t.year * 13 + t.month) * 32 + t.day) * 25 + t.hour) * 61 + t.minute) * 61 + t.second

/-- Go `a.After(b)`. -/
def DateTime.after (a b : DateTime) : Bool := decide (b.key < a.key)

/-- The fields are in range (what Go's RFC 3339 parser accepts back). -/
def isLeapYear (y : Nat) : Bool := (y % 4 = 0 && !(y % 100 = 0)) || y % 400 = 0

def daysInMonth (y m : Nat) : Nat :=
  if m = 2 then (if isLeapYear y then 29 else 28)
  else if m = 4 ∨ m = 6 ∨ m = 9 ∨ m = 11 then 30
  else 31

def DateTime.Valid (t : DateTime) : Prop :=
  t.year ≤ 9999 ∧ 1 ≤ t.month ∧ t.month ≤ 12 ∧ 1 ≤ t.day ∧
    t.day ≤ daysInMonth t.year t.month ∧ t.hour ≤ 23 ∧ t.minute ≤ 59 ∧ t.second ≤ 59

instance (t : DateTime) : Decidable t.Valid := by unfold DateTime.Valid; infer_instance

def digitChar (n : Nat) : Char := Char.ofNat (48 + n)

/-- Two-digit zero-padded decimal (Go time layout `01`, `02`, `15`, `04`, `05`). -/
def pad2 (n : Nat) : Str := [digitChar (n / 10), digitChar (n % 10)]

/-- Four-digit zero-padded decimal (Go time layout `2006`). -/
def pad4 (n : Nat) : Str :=
  [digitChar (n / 1000), digitChar (n / 100 % 10), digitChar (n / 10 % 10), digitChar (n % 10)]

/-- Go `t.UTC().Format(time.RFC3339)` (the code only formats whole seconds). -/
def formatRFC3339 (t : DateTime) : Str :=
  pad4 t.year ++ '-' :: pad2 t.month ++ '-' :: pad2 t.day ++ 'T' :: pad2 t.hour
    ++ ':' :: pad2 t.minute ++ ':' :: pad2 t.second ++ ['Z']

/-- Go `t.Format("2006-01-02")`. -/
def formatDateOnly (t : DateTime) : Str :=
  pad4 t.year ++ '-' :: pad2 t.month ++ '-' :: pad2 t.day

/-- The value of a decimal digit character. -/
def dval? (c : Char) : Option Nat :=
  if '0' ≤ c ∧ c ≤ '9' then some (c.toNat - 48) else none

/-- Go `time.Parse(time.RFC3339, s)` on the `Z`-offset form the code writes;
any other shape fails (the code only consumes the result when parsing
succeeds, falling back to the file's modification time otherwise). -/
def parseRFC3339 (s : Str) : Option DateTime :=
  match s with
  | [y1, y2, y3, y4, '-', o1, o2, '-', t1, t2, 'T', h1, h2, ':', i1, i2, ':', e1, e2, 'Z'] =>
    match dval? y1, dval? y2, dval? y3, dval? y4, dval? o1, dval? o2, dval? t1,
        dval? t2, dval? h1, dval? h2, dval? i1, dval? i2, dval? e1, dval? e2 with
    | some a, some b, some c, some d, some m1, some m2, some g1, some g2,
        some u1, some u2, some v1, some v2, some w1, some w2 =>
      let y := ((a * 10 + b) * 10 + c) * 10 + d
      let mo := m1 * 10 + m2
      let dd := g1 * 10 + g2
      let hh := u1 * 10 + u2
      let mi := v1 * 10 + v2
      let ss := w1 * 10 + w2
      if 1 ≤ mo ∧ mo ≤ 12 ∧ 1 ≤ dd ∧ dd ≤ daysInMonth y mo ∧ hh ≤ 23 ∧ mi ≤ 59 ∧ ss ≤ 59 then
        some ⟨y, mo, dd, hh, mi, ss⟩
      else none
    | _, _, _, _, _, _, _, _, _, _, _, _, _, _ => none
  | _ => none

/-- Days since 1970-01-01 of a civil date (used only by `slugify`'s fallback). -/
def daysFromCivil (y m d : Int) : Int :=
  let y' := if m ≤ 2 then y - 1 else y
  let era := (if 0 ≤ y' then y' else y' - 399) / 400
  let yoe := y' - era * 400
  let doy := (153 * (if 2 < m then m - 3 else m + 9) + 2) / 5 + d - 1
  let doe := yoe * 365 + yoe / 4 - yoe / 100 + doy
  era * 146097 + doe - 719468

/-- Go `t.Unix()`. -/
def DateTime.unixSeconds (t : DateTime) : Int :=
  86400 * daysFromCivil t.year t.month t.day + 3600 * t.hour + 60 * t.minute + t.second

/-- Go `fmt` `%d` on an `int64`. -/
def intToChars (i : Int) : Str :=
  if i < 0 then '-' :: natToChars i.natAbs else natToChars i.natAbs

/-! ## Notes and the frontmatter header (Go package `notes`, note.go) -/

structure Note where
  id : Str
  title : Str
  tags : List Str
  created : DateTime
  updated : DateTime
  body : Str
  raw : Str
  filename : Str
deriving DecidableEq

/-- One `key: value` header line, as ParseFrontmatter's loop reads it. -/
def metaLine (line : Str) : Option (Str × Str) :=
  match indexOf? [':'] line with
  | none => none
  | some idx => some (trimSpace (line.take idx), trimSpace (line.drop (idx + 1)))

def collectMeta (lines : List Str) : List (Str × Str) := lines.filterMap metaLine

/-- Go map lookup with `""` for an absent key; a later assignment wins. -/
def metaGet (m : List (Str × Str)) (k : Str) : Str :=
  match m.reverse.find? (fun p => decide (p.1 = k)) with
  | some p => p.2
  | none => []

/-- The body of Go `ParseFrontmatter` after the CRLF normalization.
(Go's `content[4:end]` slice would panic when `end` is 3, i.e. on input
starting `"---\n---"`; the model totalizes that slice to the empty string —
no claim touches that input.) -/
def parseFrontmatterClean (content : Str) : List (Str × Str) × Str :=
  if List.isPrefixOf (("---").data) content then
    match indexOf? ['\n', '-', '-', '-'] (content.drop 3) with
    | none => ([], content)
    | some e =>
      let endIdx := e + 3
      let fm := (content.drop 4).take (endIdx - 4)
      let body := trimLeftWhile (fun c => decide (c = '\n')) (content.drop (endIdx + 4))
      (collectMeta (splitChar '\n' fm), body)
  else ([], content)

/-- Go `ParseFrontmatter`: normalize CRLF to LF, then parse. -/
def parseFrontmatter (content0 : Str) : List (Str × Str) × Str :=
  parseFrontmatterClean (normalizeCRLF content0)

/-- One element of the tag list: the loop body of Go `parseTags`. -/
def parseTagElem (p : Str) : Option Str :=
  let t := trimCut ['"', '\''] (trimSpace p)
  if t = [] then none else some t

/-- Go `parseTags`. -/
def parseTags (raw : Str) : List Str :=
  let raw' := trimCut ['[', ']'] raw
  if raw' = [] then [] else (splitChar ',' raw').filterMap parseTagElem

/-- Go `BuildFrontmatter` (its `quoted` loop copies each tag unchanged). -/
def buildFrontmatter (n : Note) : Str :=
  let tags :=
    if 0 < n.tags.length then '[' :: joinSep ((", ").data) n.tags ++ [']'] else ("[]").data
  ("---\ntitle: ").data ++ n.title
    ++ ("\ntags: ").data ++ tags
    ++ ("\ncreated: ").data ++ formatRFC3339 n.created
    ++ ("\nupdated: ").data ++ formatRFC3339 n.updated
    ++ ("\n---\n\n").data

/-- Go `NoteFromRaw`. -/
def noteFromRaw (id filename raw : Str) (modTime : DateTime) : Note :=
  let meta := (parseFrontmatter raw).1
  let body := (parseFrontmatter raw).2
  let title0 := metaGet meta (("title").data)
  { id := id
    title := if title0 = [] then id else title0
    tags := parseTags (metaGet meta (("tags").data))
    created := (parseRFC3339 (metaGet meta (("created").data))).getD modTime
    updated := (parseRFC3339 (metaGet meta (("updated").data))).getD modTime
    body := body
    raw := raw
    filename := filename }

/-! ## The on-disk store (Go package `notes`, store.go) -/

structure FsEntry where
  content : Str
  modTime : DateTime
  isDir : Bool
  readable : Bool
deriving DecidableEq

/-- The notes directory: an association list from full file path to entry
(the store only ever touches its own directory).  `readable = false`
models an entry whose read fails with an I/O error. -/
abbrev FS := List (Str × FsEntry)

def fsFind? (fs : FS) (path : Str) : Option FsEntry :=
  match fs.find? (fun p => decide (p.1 = path)) with
  | some p => some p.2
  | none => none

/-- Go `os.Stat` succeeding. -/
def fsExists (fs : FS) (path : Str) : Bool := (fsFind? fs path).isSome

/-- Go `os.WriteFile` (create or truncate). -/
def fsWrite (fs : FS) (path content : Str) (now : DateTime) : FS :=
  (path, ⟨content, now, false, true⟩) :: fs.filter (fun p => !(decide (p.1 = path)))

/-- Go `os.Remove` (the existence check is in `storeDelete`). -/
def fsRemove (fs : FS) (path : Str) : FS := fs.filter (fun p => !(decide (p.1 = path)))

def joinPath (dir name : Str) : Str := dir ++ '/' :: name

/-- `filepath.Join(s.dir, id+".md")`. -/
def mdPath (dir id : Str) : Str := joinPath dir (id ++ (".md").data)

/-- Go `filepath.Base` on the paths the store builds. -/
def baseName (p : Str) : Str := (splitChar '/' p).getLastD p

/-- Go `Store.loadFile`: `os.Stat`, `os.ReadFile`, `NoteFromRaw`.  A missing
entry fails (`NotFound`); an unreadable entry or a directory models a read
that fails with an I/O error. -/
def loadFile (fs : FS) (path : Str) : Except Unit Note :=
  match fsFind? fs path with
  | none => .error ()
  | some e =>
    if e.readable && !e.isDir then
      .ok (noteFromRaw (trimSuffixStr (baseName path) ((".md").data)) path e.content e.modTime)
    else .error ()

/-- Go `Store.Load`. -/
def storeLoad (fs : FS) (dir id : Str) : Except Unit Note := loadFile fs (mdPath dir id)

/-- The ordering `Store.LoadAll` sorts by (`sort.Slice` with
`notes[i].Updated.After(notes[j].Updated)`): updated time descending. -/
def updatedDesc (a b : Note) : Prop := b.updated.key ≤ a.updated.key

instance : DecidableRel updatedDesc := fun a b => by unfold updatedDesc; infer_instance

/-- Go `Store.LoadAll`: read the directory, skip directories, non-`.md`
names and entries whose read fails, sort newest-first.  Go's unstable
`sort.Slice` returns some permutation sorted under the comparison;
insertion sort is one such permutation. -/
def storeLoadAll (fs : FS) (dir : Str) : List Note :=
  let loaded := fs.filterMap fun p =>
    if !p.2.isDir && hasSuffix (baseName p.1) ((".md").data) then (loadFile fs p.1).toOption
    else none
  List.insertionSort updatedDesc loaded

/-- Go `Store.Save`: set `Updated` to now, serialize header plus body, record
`Raw`, overwrite the file at `note.Filename`. -/
def storeSave (fs : FS) (note : Note) (now : DateTime) : Note × FS :=
  let note1 := { note with updated := now }
  let content := buildFrontmatter note1 ++ note1.body
  let note2 := { note1 with raw := content }
  (note2, fsWrite fs note2.filename content now)

/-- Go `strings.ToLower` on ASCII.  (Unicode letters lowercase to Unicode
letters, which the slug loop then drops either way.) -/
def toLowerChar (c : Char) : Char :=
  if 'A' ≤ c ∧ c ≤ 'Z' then Char.ofNat (c.toNat + 32) else c

/-- The rune loop of `slugify`: keep lowercase alphanumerics, map space,
hyphen and underscore to a hyphen, drop the rest. -/
def slugChars : Str → Str
  | [] => []
  | c :: rest =>
    if ('a' ≤ c ∧ c ≤ 'z') ∨ ('0' ≤ c ∧ c ≤ '9') then c :: slugChars rest
    else if c = ' ' ∨ c = '-' ∨ c = '_' then '-' :: slugChars rest
    else slugChars rest

/-- The `for strings.Contains(result, "--")` loop: repeated
`ReplaceAll("--", "-")` until none is left, i.e. every run of dashes
collapses to one dash.  Structural fuel (`s.length` always suffices:
each step consumes one character). -/
def collapseDashesAux : Nat → Str → Str
  | 0, s => s
  | _, [] => []
  | fuel + 1, c :: rest =>
    match rest with
    | [] => [c]
    | d :: rest' =>
      if c = '-' ∧ d = '-' then collapseDashesAux fuel ('-' :: rest')
      else c :: collapseDashesAux fuel (d :: rest')

def collapseDashes (s : Str) : Str := collapseDashesAux s.length s

/-- Go `slugify` (it reads the clock only for the empty-slug fallback). -/
def slugify (title : Str) (now : DateTime) : Str :=
  let result := collapseDashes (trimCut ['-'] (slugChars (title.map toLowerChar)))
  if result = [] then ("note-").data ++ intToChars now.unixSeconds else result

/-- The collision-probe loop of `Store.Create`: try the current candidate;
while it exists move to `base-i`.  Structural fuel: `fs.length + 1` always
suffices because the candidates are pairwise distinct and at most
`fs.length` paths exist. -/
def probeGo (fs : FS) (dir base : Str) : Nat → Str → Nat → Str
  | 0, id, _ => id
  | fuel + 1, id, i =>
    if fsExists fs (mdPath dir id) then
      probeGo fs dir base fuel (base ++ '-' :: natToChars i) (i + 1)
    else id

def probeId (fs : FS) (dir base : Str) : Str := probeGo fs dir base (fs.length + 1) base 2

/-- Go `Store.Create`. -/
def storeCreate (fs : FS) (dir title : Str) (tags : List Str) (now : DateTime) : Note × FS :=
  let id := probeId fs dir (slugify title now)
  let note : Note :=
    { id := id, title := title, tags := tags, created := now, updated := now,
      body := [], raw := [], filename := mdPath dir id }
  storeSave fs note now

/-- `"daily-" + time.Now().Format("2006-01-02")`. -/
def dailyId (now : DateTime) : Str := ("daily-").data ++ formatDateOnly now

/-- Go `Store.CreateDaily`. -/
def storeCreateDaily (fs : FS) (dir : Str) (now : DateTime) : Except Unit (Note × FS) :=
  if fsExists fs (mdPath dir (dailyId now)) then
    (loadFile fs (mdPath dir (dailyId now))).map fun n => (n, fs)
  else
    .ok (storeCreate fs dir (("Daily ").data ++ formatDateOnly now) [("daily").data] now)

/-- Go `Store.Delete` (`os.Remove` fails when the file is absent). -/
def storeDelete (fs : FS) (dir id : Str) : Except Unit FS :=
  if fsExists fs (mdPath dir id) then .ok (fsRemove fs (mdPath dir id)) else .error ()

/-! ## The Gemini client (Go package `ai`, gemini.go) -/

structure AiClient where
  apiKey : Str
  modelName : Str
deriving DecidableEq

/-- Go `NewClient`. -/
def newClient (apiKey model : Str) : AiClient :=
  { apiKey := apiKey, modelName := if model = [] then ("gemini-2.5-flash").data else model }

/-- Go `Client.Available`. -/
def available (c : AiClient) : Bool := !(decide (c.apiKey = []))

structure GeminiPart where
  text : Str

structure GeminiCandidate where
  parts : List GeminiPart

/-- The decoded response body (Go `geminiResponse`). -/
structure GeminiResponse where
  candidates : List GeminiCandidate
  error : Option Str

/-- The network: one oracle call stands for `http.Post` followed by
`io.ReadAll` and `json.Unmarshal`; `.error` is a transport or decode
failure.  The argument is the prompt, the request's only variable part. -/
abbrev Transport := Str → Except Str GeminiResponse

def noKeyMsg : Str :=
  ("no Gemini API key configured (check ~/.config/pairy/config.json or set GEMINI_API_KEY)").data

/-- The response handling shared by `Ask` and `AskVault`: a service-reported
error, then an empty candidate list, then the concatenation of the first
candidate's text fragments. -/
def handleResponse (r : GeminiResponse) : Except Str Str :=
  match r.error with
  | some m => .error (("API error: ").data ++ m)
  | none =>
    match r.candidates with
    | [] => .error (("no response from API").data)
    | cand :: _ => .ok (joinSep [] (cand.parts.map GeminiPart.text))

/-- Go `ai.NoteContext`. -/
structure NoteContext where
  title : Str
  tags : List Str
  body : Str
deriving DecidableEq

/-- One iteration of `AskVault`'s context loop (`i` is 1-based): the body is
truncated exactly when the whole vault has more than 20 notes and this body
exceeds 500 characters. -/
def vaultBlock (total i : Nat) (n : NoteContext) : Str :=
  let body :=
    if 20 < total ∧ 500 < n.body.length then n.body.take 500 ++ ("...").data else n.body
  let tags :=
    if 0 < n.tags.length then (" [").data ++ joinSep ((", ").data) n.tags ++ [']'] else []
  ("--- Note ").data ++ natToChars i ++ (": ").data ++ n.title ++ tags ++ (" ---\n").data
    ++ body ++ ("\n\n").data

def vaultBlocks (total : Nat) : Nat → List NoteContext → Str
  | _, [] => []
  | i, n :: rest => vaultBlock total i n ++ vaultBlocks total (i + 1) rest

/-- The NOTES section `AskVault` builds (Go's `sb`). -/
def buildVaultContext (ctxs : List NoteContext) : Str := vaultBlocks ctxs.length 1 ctxs

def vaultPrompt (ctxs : List NoteContext) (question : Str) : Str :=
  ("You are a personal knowledge assistant. Answer based on the user's notes vault. Be specific and cite which note titles you're drawing from.\n\nNOTES:\n").data
    ++ buildVaultContext ctxs ++ ("\nQUESTION: ").data ++ question

/-- Go `Client.AskVault`; the `Nat` counts transport invocations. -/
def askVault (c : AiClient) (post : Transport) (ctxs : List NoteContext) (question : Str) :
    Except Str Str × Nat :=
  if !(available c) then (.error noKeyMsg, 0)
  else
    match post (vaultPrompt ctxs question) with
    | .error e => (.error e, 1)
    | .ok r => (handleResponse r, 1)

/-- The context block `Ask` builds from the note (capped at 4000). -/
def askContextBlock (noteTitle noteContent : Str) : Str :=
  let block := ("Note: ").data ++ noteTitle ++ ("\n\n").data ++ noteContent
  if 4000 < block.length then block.take 4000 ++ ("\n... (truncated)").data else block

def askPrompt (noteTitle noteContent question : Str) : Str :=
  ("Context from my note:\n\n").data ++ askContextBlock noteTitle noteContent
    ++ ("\n\nQuestion: ").data ++ question

/-- Go `Client.Ask` (the per-note question); the `Nat` counts transport
invocations. -/
def ask (c : AiClient) (post : Transport) (noteTitle noteContent question : Str) :
    Except Str Str × Nat :=
  if !(available c) then (.error noKeyMsg, 0)
  else
    match post (askPrompt noteTitle noteContent question) with
    | .error e => (.error e, 1)
    | .ok r => (handleResponse r, 1)

/-! ## The session state machine (Go package `ui`, app.go — the slice the
claims touch; viewport, rendering and text-input state are outside it) -/

inductive AppState where
  | list
  | viewer
  | search
  | newNote
  | templatePicker
  | templateTitle
  | aiPanel
  | confirmDelete
  | help
  | links
  | vaultAI
deriving DecidableEq

structure AiEntry where
  question : Str
  answer : Str
deriving DecidableEq

structure AppModel where
  state : AppState
  dir : Str
  allNotes : List Note
  filtered : List Note
  cursor : Nat
  current : Option Note
  aiHistory : List AiEntry
  deleteTarget : Option Note
  statusMsg : Str
  statusIsError : Bool
deriving DecidableEq

/-- Go `App.setStatus`. -/
def setStatus (a : AppModel) (msg : Str) (isErr : Bool) : AppModel :=
  { a with statusMsg := msg, statusIsError := isErr }

/-- Go `App.openNote`: reload the note from the store; on success install it
as current, reset the per-note AI history and enter the viewer; on failure
only set an error status (`reRender` touches rendering state only). -/
def openNote (a : AppModel) (fs : FS) (note : Note) : AppModel :=
  match storeLoad fs a.dir note.id with
  | .error _ => setStatus a (("error: load failed").data) true
  | .ok loaded => { a with current := some loaded, aiHistory := [], state := .viewer }

/-- Go `App.updateConfirmDelete`; the `Bool` records whether the handler
issued `cmdLoadNotes` (the full repository reload). -/
def updateConfirmDelete (a : AppModel) (fs : FS) (key : Str) : AppModel × FS × Bool :=
  if key = ("y").data ∨ key = ("Y").data ∨ key = ("enter").data then
    match a.deleteTarget with
    | some target =>
      match storeDelete fs a.dir target.id with
      | .error _ =>
        ({ setStatus a (("delete failed").data) true with deleteTarget := none, state := .list },
          fs, true)
      | .ok fs' =>
        ({ setStatus a (("deleted ").data ++ target.title) false with
            deleteTarget := none, state := .list }, fs', true)
    | none => ({ a with state := .list }, fs, true)
  else if key = ("n").data ∨ key = ("N").data ∨ key = ("esc").data ∨ key = ("q").data then
    ({ a with deleteTarget := none, state := .list }, fs, false)
  else (a, fs, false)

/-! ## Wiki links.  The source file defining `notes.ExtractLinks` is not
among the repository files here — only its tests and its caller are. -/

/-- Modelled from the spec: `ExtractLinks`'s defining file is missing.
§4.2 specifies "scans for bracketed link markers; empty targets are
discarded; first-seen order preserved; duplicates removed", and the caller
preprocesses the same markers with the regular expression
`\[\[([^\]]+)\]\]`.  At each `[[` the scan takes the run of characters up
to the next `]`, requires it nonempty and followed by `]]`, and resumes
after the closing brackets; on a failed match it resumes one character
later.  Structural fuel: each step consumes at least one character. -/
def scanLinks : Nat → Str → List Str
  | 0, _ => []
  | _, [] => []
  | fuel + 1, '[' :: '[' :: rest =>
    let t := rest.takeWhile fun c => decide (c ≠ ']')
    if t ≠ [] ∧ List.isPrefixOf [']', ']'] (rest.drop t.length) then
      t :: scanLinks fuel (rest.drop (t.length + 2))
    else scanLinks fuel ('[' :: rest)
  | fuel + 1, _ :: rest => scanLinks fuel rest

/-- First-seen-order deduplication. -/
def dedupAcc (seen : List Str) : List Str → List Str
  | [] => []
  | x :: xs => if x ∈ seen then dedupAcc seen xs else x :: dedupAcc (x :: seen) xs

/-- Modelled from the spec (§4.2): ordered, de-duplicated link targets;
"empty targets are discarded" is the filter (the scan already skips them,
the filter keeps the discard explicit). -/
def extractLinks (body : Str) : List Str :=
  dedupAcc [] ((scanLinks body.length body).filter fun t => !(decide (t = [])))

/-! ## Generic string lemmas -/

/-- No two adjacent characters of the string satisfy `p`. -/
def noPair (p : Char → Char → Bool) : Str → Bool
  | [] => true
  | [_] => true
  | c :: d :: rest => !(p c d) && noPair p (d :: rest)

/-- The pair that `normalizeCRLF` rewrites. -/
def crlfPair (c d : Char) : Bool := decide (c = '\r') && decide (d = '\n')

/-- The pair opening a premature `\n---` delimiter. -/
def nlDashPair (c d : Char) : Bool := decide (c = '\n') && decide (d = '-')

/-- The pair the dash-collapsing loop rewrites. -/
def dashPair (c d : Char) : Bool := decide (c = '-') && decide (d = '-')

theorem noPair_cons_cons {p : Char → Char → Bool} {c d : Char} {rest : Str}
    (h1 : p c d = false) (h2 : noPair p (d :: rest) = true) :
    noPair p (c :: d :: rest) = true := by
  simp [noPair, h1, h2]

theorem noPair_of_all_fst {p : Char → Char → Bool} {a : Str}
    (h : ∀ c ∈ a, ∀ d, p c d = false) : noPair p a = true := by
  induction a using noPair.induct p with
  | case1 => rfl
  | case2 c => rfl
  | case3 c d rest ih =>
    exact noPair_cons_cons (h c (List.mem_cons_self _ _) d)
      (ih (fun x hx d' => h x (List.mem_cons_of_mem _ hx) d'))

theorem noPair_of_all_snd {p : Char → Char → Bool} {a : Str}
    (h : ∀ d ∈ a, ∀ c, p c d = false) : noPair p a = true := by
  induction a using noPair.induct p with
  | case1 => rfl
  | case2 c => rfl
  | case3 c d rest ih =>
    exact noPair_cons_cons (h d (List.mem_cons_of_mem _ (List.mem_cons_self _ _)) c)
      (ih (fun x hx c' => h x (List.mem_cons_of_mem _ hx) c'))

theorem noPair_append {p : Char → Char → Bool} {a b : Str}
    (ha : noPair p a = true)
    (hab : ∀ x y, a.getLast? = some x → b.head? = some y → p x y = false)
    (hb : noPair p b = true) : noPair p (a ++ b) = true := by
  induction a using noPair.induct p with
  | case1 => simpa using hb
  | case2 c =>
    cases b with
    | nil => simpa using ha
    | cons y ys =>
      exact noPair_cons_cons (hab c y rfl rfl) hb
  | case3 c d rest ih =>
    simp only [noPair, Bool.and_eq_true, Bool.not_eq_true'] at ha
    refine noPair_cons_cons ha.1 (ih ha.2 ?_)
    intro x y hx hy
    exact hab x y (by simpa [List.getLast?_cons_cons] using hx) hy

/-- A `noPair`-clean string is left unchanged by `normalizeCRLF`. -/
theorem normalizeCRLF_eq_self {s : Str} (h : noPair crlfPair s = true) :
    normalizeCRLF s = s := by
  induction s using normalizeCRLF.induct with
  | case1 => rfl
  | case2 c => rfl
  | case3 c d rest hcd ih =>
    exfalso
    simp only [noPair, Bool.and_eq_true, Bool.not_eq_true'] at h
    simp [crlfPair, hcd.1, hcd.2] at h
  | case4 c d rest hcd ih =>
    simp only [noPair, Bool.and_eq_true, Bool.not_eq_true'] at h
    rw [normalizeCRLF, if_neg hcd]
    exact congrArg (c :: ·) (ih h.2)

theorem indexOf_close (s r : Str) (h : noPair nlDashPair s = true) :
    indexOf? ['\n', '-', '-', '-'] (s ++ '\n' :: '-' :: '-' :: '-' :: r) = some s.length := by
  induction s using noPair.induct nlDashPair with
  | case1 => simp [indexOf?, List.isPrefixOf]
  | case2 c =>
    rw [List.cons_append, List.nil_append, indexOf?]
    have hpre :
        List.isPrefixOf ['\n', '-', '-', '-'] (c :: '\n' :: '-' :: '-' :: '-' :: r) = false := by
      simp [List.isPrefixOf]
    rw [hpre]
    simp only [Bool.false_eq_true, if_false]
    have h0 : indexOf? ['\n', '-', '-', '-'] ('\n' :: '-' :: '-' :: '-' :: r) = some 0 := by
      simp [indexOf?, List.isPrefixOf]
    rw [h0]
    rfl
  | case3 c d rest ih =>
    simp only [noPair, Bool.and_eq_true, Bool.not_eq_true'] at h
    have ih' := ih h.2
    rw [List.cons_append, indexOf?]
    have hpre : List.isPrefixOf ['\n', '-', '-', '-']
        (c :: (d :: rest) ++ '\n' :: '-' :: '-' :: '-' :: r) = false := by
      by_cases hc : c = '\n'
      · have hd : d ≠ '-' := by
          intro hdd
          simp [nlDashPair, hc, hdd] at h
        subst hc
        simp only [List.cons_append, List.isPrefixOf, Bool.and_eq_false_iff]
        right
        left
        exact beq_eq_false_iff_ne.mpr fun hh => hd hh.symm
      · simp only [List.cons_append, List.isPrefixOf, Bool.and_eq_false_iff]
        left
        exact beq_eq_false_iff_ne.mpr fun hh => hc hh.symm
    rw [List.cons_append] at hpre
    rw [hpre]
    simp only [Bool.false_eq_true, if_false]
    rw [ih']
    simp

/-- `splitChar` at a separator standing after a separator-free chunk. -/
theorem splitChar_append_cons {sep : Char} {a : Str} (b : Str) (ha : sep ∉ a) :
    splitChar sep (a ++ sep :: b) = a :: splitChar sep b := by
  induction a with
  | nil => simp [splitChar]
  | cons c a' ih =>
    have hc : ¬c = sep := fun h => ha (h ▸ List.mem_cons_self _ _)
    have ih' := ih fun h => ha (List.mem_cons_of_mem _ h)
    rw [List.cons_append, splitChar, if_neg hc, ih']

theorem splitChar_of_not_mem {sep : Char} {a : Str} (ha : sep ∉ a) :
    splitChar sep a = [a] := by
  induction a with
  | nil => rfl
  | cons c a' ih =>
    have hc : ¬c = sep := fun h => ha (h ▸ List.mem_cons_self _ _)
    rw [splitChar, if_neg hc, ih fun h => ha (List.mem_cons_of_mem _ h)]

/-- Left trimming is the identity when the head does not satisfy `p`. -/
theorem trimLeftWhile_eq_self {p : Char → Bool} {s : Str}
    (hh : ∀ c, s.head? = some c → p c = false) : trimLeftWhile p s = s := by
  cases s with
  | nil => rfl
  | cons c rest => simp [trimLeftWhile, List.dropWhile_cons, hh c rfl]

/-- Right trimming is the identity when the last character does not satisfy `p`. -/
theorem trimRightWhile_eq_self {p : Char → Bool} {s : Str}
    (hl : ∀ c, s.getLast? = some c → p c = false) : trimRightWhile p s = s := by
  cases hs : s.getLast? with
  | none =>
    have : s = [] := by
      cases s with
      | nil => rfl
      | cons c rest => simp [List.getLast?_eq_getLast] at hs
    simp [this, trimRightWhile]
  | some c =>
    have hrev : s.reverse.head? = some c := by
      rw [List.head?_reverse]
      exact hs
    unfold trimRightWhile
    cases hrv : s.reverse with
    | nil => simp [hrv] at hrev
    | cons d tl =>
      rw [hrv] at hrev
      simp only [List.head?_cons, Option.some.injEq] at hrev
      have hpd : p d = false := by rw [hrev]; exact hl c hs
      rw [List.dropWhile_cons, hpd]
      simp only [Bool.false_eq_true, if_false]
      rw [← hrv, List.reverse_reverse]

/-- Both-sided trimming is the identity when neither end satisfies `p`. -/
theorem trimLR_eq_self {p : Char → Bool} {s : Str}
    (hh : ∀ c, s.head? = some c → p c = false)
    (hl : ∀ c, s.getLast? = some c → p c = false) :
    trimRightWhile p (trimLeftWhile p s) = s := by
  rw [trimLeftWhile_eq_self hh, trimRightWhile_eq_self hl]

/-! ## The frontmatter round trip (claim C1) -/

theorem noPair_cons_of_head {p : Char → Char → Bool} {c : Char} {s : Str}
    (h : ∀ y, s.head? = some y → p c y = false) (hs : noPair p s = true) :
    noPair p (c :: s) = true := by
  cases s with
  | nil => rfl
  | cons d t => exact noPair_cons_cons (h d rfl) hs

/-- Splitting a well-shaped header block: the closing delimiter the index
scan finds is the real one, the header text and the body come out intact. -/
theorem parseFrontmatterClean_shape (fm rest : Str)
    (h2 : noPair nlDashPair ('\n' :: fm) = true) :
    parseFrontmatterClean
        ('-' :: '-' :: '-' :: '\n' :: (fm ++ '\n' :: '-' :: '-' :: '-' :: rest)) =
      (collectMeta (splitChar '\n' fm), trimLeftWhile (fun c => decide (c = '\n')) rest) := by
  have hidx : indexOf? ['\n', '-', '-', '-']
      (('-' :: '-' :: '-' :: '\n' :: (fm ++ '\n' :: '-' :: '-' :: '-' :: rest)).drop 3) =
      some (fm.length + 1) := by
    have := indexOf_close ('\n' :: fm) rest h2
    simpa [List.cons_append] using this
  have hpre : List.isPrefixOf (("---").data)
      ('-' :: '-' :: '-' :: '\n' :: (fm ++ '\n' :: '-' :: '-' :: '-' :: rest)) = true := by
    simp [List.isPrefixOf]
  unfold parseFrontmatterClean
  rw [hpre, hidx]
  simp only [if_true]
  have htake : (('-' :: '-' :: '-' :: '\n' ::
      (fm ++ '\n' :: '-' :: '-' :: '-' :: rest)).drop 4).take (fm.length + 1 + 3 - 4) = fm := by
    simp only [List.drop_succ_cons, List.drop_zero]
    have : fm.length + 1 + 3 - 4 = fm.length := by omega
    rw [this]
    exact List.take_left' rfl
  have hdrop : ('-' :: '-' :: '-' :: '\n' ::
      (fm ++ '\n' :: '-' :: '-' :: '-' :: rest)).drop (fm.length + 1 + 3 + 4) = rest := by
    have hshape : '-' :: '-' :: '-' :: '\n' :: (fm ++ '\n' :: '-' :: '-' :: '-' :: rest) =
        ('-' :: '-' :: '-' :: '\n' :: (fm ++ ['\n', '-', '-', '-'])) ++ rest := by
      simp [List.cons_append, List.append_assoc]
    rw [hshape]
    exact List.drop_left' (by simp)
  rw [htake, hdrop]

theorem parseFrontmatter_shape (fm rest : Str)
    (h1 : noPair crlfPair
      ('-' :: '-' :: '-' :: '\n' :: (fm ++ '\n' :: '-' :: '-' :: '-' :: rest)) = true)
    (h2 : noPair nlDashPair ('\n' :: fm) = true) :
    parseFrontmatter ('-' :: '-' :: '-' :: '\n' :: (fm ++ '\n' :: '-' :: '-' :: '-' :: rest)) =
      (collectMeta (splitChar '\n' fm), trimLeftWhile (fun c => decide (c = '\n')) rest) := by
  unfold parseFrontmatter
  rw [normalizeCRLF_eq_self h1]
  exact parseFrontmatterClean_shape fm rest h2

/-- The character facts about decimal digits the proofs below need. -/
theorem digit_facts : ∀ k < 10,
    dval? (digitChar k) = some k ∧ toLowerChar (digitChar k) = digitChar k ∧
    (('a' ≤ digitChar k ∧ digitChar k ≤ 'z') ∨ ('0' ≤ digitChar k ∧ digitChar k ≤ '9')) ∧
    ¬digitChar k = '-' ∧ ¬digitChar k = '\n' ∧ ¬digitChar k = '\r' ∧ ¬digitChar k = '/' ∧
    isSpaceChar (digitChar k) = false ∧ ¬digitChar k = ':' ∧ ¬digitChar k = ',' ∧
    ¬digitChar k = '[' ∧ ¬digitChar k = ']' ∧ ¬digitChar k = '"' ∧ ¬digitChar k = '\'' ∧
    ¬digitChar k = ' ' ∧ ¬digitChar k = '_' := by
  decide

theorem digitChar_not_space : ∀ k < 10, isSpaceChar (digitChar k) = false := by decide

theorem digitChar_kept : ∀ k < 10,
    ('a' ≤ digitChar k ∧ digitChar k ≤ 'z') ∨ ('0' ≤ digitChar k ∧ digitChar k ≤ '9') := by
  decide

theorem digitChar_lower : ∀ k < 10, toLowerChar (digitChar k) = digitChar k := by decide

theorem daysInMonth_le (y m : Nat) : daysInMonth y m ≤ 31 := by
  unfold daysInMonth
  split
  · split <;> omega
  · split <;> omega

theorem formatRFC3339_eq (t : DateTime) :
    formatRFC3339 t =
      [digitChar (t.year / 1000), digitChar (t.year / 100 % 10), digitChar (t.year / 10 % 10),
        digitChar (t.year % 10), '-', digitChar (t.month / 10), digitChar (t.month % 10), '-',
        digitChar (t.day / 10), digitChar (t.day % 10), 'T', digitChar (t.hour / 10),
        digitChar (t.hour % 10), ':', digitChar (t.minute / 10), digitChar (t.minute % 10), ':',
        digitChar (t.second / 10), digitChar (t.second % 10), 'Z'] := rfl

/-- Formatting a valid timestamp and parsing it back is the identity. -/
theorem parseRFC3339_format (t : DateTime) (hv : t.Valid) :
    parseRFC3339 (formatRFC3339 t) = some t := by
  obtain ⟨h9999, hmo1, hmo2, hd1, hd2, hh, hmi, hs⟩ := hv
  have hd31 : t.day ≤ 31 := le_trans hd2 (daysInMonth_le t.year t.month)
  rw [formatRFC3339_eq]
  have e1 := (digit_facts (t.year / 1000) (by omega)).1
  have e2 := (digit_facts (t.year / 100 % 10) (by omega)).1
  have e3 := (digit_facts (t.year / 10 % 10) (by omega)).1
  have e4 := (digit_facts (t.year % 10) (by omega)).1
  have e5 := (digit_facts (t.month / 10) (by omega)).1
  have e6 := (digit_facts (t.month % 10) (by omega)).1
  have e7 := (digit_facts (t.day / 10) (by omega)).1
  have e8 := (digit_facts (t.day % 10) (by omega)).1
  have e9 := (digit_facts (t.hour / 10) (by omega)).1
  have e10 := (digit_facts (t.hour % 10) (by omega)).1
  have e11 := (digit_facts (t.minute / 10) (by omega)).1
  have e12 := (digit_facts (t.minute % 10) (by omega)).1
  have e13 := (digit_facts (t.second / 10) (by omega)).1
  have e14 := (digit_facts (t.second % 10) (by omega)).1
  simp only [parseRFC3339, e1, e2, e3, e4, e5, e6, e7, e8, e9, e10, e11, e12, e13, e14]
  have hyr : ((t.year / 1000 * 10 + t.year / 100 % 10) * 10 + t.year / 10 % 10) * 10
      + t.year % 10 = t.year := by omega
  have hmor : t.month / 10 * 10 + t.month % 10 = t.month := by omega
  have hdr : t.day / 10 * 10 + t.day % 10 = t.day := by omega
  have hhr : t.hour / 10 * 10 + t.hour % 10 = t.hour := by omega
  have hmir : t.minute / 10 * 10 + t.minute % 10 = t.minute := by omega
  have hsr : t.second / 10 * 10 + t.second % 10 = t.second := by omega
  simp only [hyr, hmor, hdr, hhr, hmir, hsr]
  rw [if_pos ⟨hmo1, hmo2, hd1, hd2, hh, hmi, hs⟩]

theorem mem_of_getLast?_eq {α : Type} {l : List α} {x : α} (h : l.getLast? = some x) :
    x ∈ l := by
  have hx : x ∈ l.getLast? := Option.mem_def.mpr h
  obtain ⟨hne, heq⟩ := List.mem_getLast?_eq_getLast hx
  rw [heq]
  exact List.getLast_mem hne

/-- Pair-safe concatenation when no character of `a` can start a bad pair. -/
theorem noPair_append_of_fst {p : Char → Char → Bool} {a b : Str}
    (ha : ∀ c ∈ a, ∀ d, p c d = false) (hb : noPair p b = true) :
    noPair p (a ++ b) = true :=
  noPair_append (noPair_of_all_fst ha)
    (fun x y hx _ => ha x (mem_of_getLast?_eq hx) y) hb

theorem crlf_fst_of_ne {c : Char} (h : ¬c = '\r') : ∀ d, crlfPair c d = false := by
  intro d
  simp [crlfPair, h]

theorem nlDash_fst_of_ne {c : Char} (h : ¬c = '\n') : ∀ d, nlDashPair c d = false := by
  intro d
  simp [nlDashPair, h]

/-- `crlfPair`-safe concatenation for a chunk that has no newline inside and
does not end in a carriage return (its characters may include `'\r'`). -/
theorem crlf_append_chunk {a b : Str} (ha : ∀ d ∈ a, ¬d = '\n')
    (hlast : ∀ x, a.getLast? = some x → ¬x = '\r') (hb : noPair crlfPair b = true) :
    noPair crlfPair (a ++ b) = true :=
  noPair_append
    (noPair_of_all_snd fun d hd c => by simp [crlfPair, ha d hd])
    (fun x y hx _ => by simp [crlfPair, hlast x hx]) hb

/-- The two tag serializations of `BuildFrontmatter`. -/
def tagsStr (tags : List Str) : Str :=
  if 0 < tags.length then '[' :: joinSep ((", ").data) tags ++ [']'] else ("[]").data

/-- The header lines `BuildFrontmatter` emits, without the delimiters. -/
def fmLines (n : Note) : Str :=
  ("title: ").data ++ n.title ++ '\n' :: (("tags: ").data ++ tagsStr n.tags
    ++ '\n' :: (("created: ").data ++ formatRFC3339 n.created
    ++ '\n' :: (("updated: ").data ++ formatRFC3339 n.updated)))

theorem buildFrontmatter_shape (n : Note) :
    buildFrontmatter n =
      '-' :: '-' :: '-' :: '\n' :: (fmLines n ++ '\n' :: '-' :: '-' :: '-' :: ['\n', '\n']) := by
  unfold buildFrontmatter fmLines tagsStr
  simp [List.cons_append, List.append_assoc]

/-- Every character of a separator-joined list comes from the separator or
from one of the elements. -/
theorem mem_joinSep {sep : Str} {l : List Str} {c : Char} (h : c ∈ joinSep sep l) :
    c ∈ sep ∨ ∃ t ∈ l, c ∈ t := by
  induction l using joinSep.induct sep with
  | case1 => simp [joinSep] at h
  | case2 x => exact Or.inr ⟨x, List.mem_cons_self _ _, h⟩
  | case3 x y rest ih =>
    rw [joinSep] at h
    rcases List.mem_append.mp h with hx | hrest
    · rcases List.mem_append.mp hx with hx' | hsep
      · exact Or.inr ⟨x, List.mem_cons_self _ _, hx'⟩
      · exact Or.inl hsep
    · rcases ih hrest with hsep | ⟨t, ht, hc⟩
      · exact Or.inl hsep
      · exact Or.inr ⟨t, List.mem_cons_of_mem _ ht, hc⟩

theorem mem_tagsStr {tags : List Str} {c : Char} (h : c ∈ tagsStr tags) :
    c = '[' ∨ c = ']' ∨ c = ',' ∨ c = ' ' ∨ ∃ t ∈ tags, c ∈ t := by
  unfold tagsStr at h
  split at h
  · rcases List.mem_cons.mp h with hc | h'
    · exact Or.inl hc
    · rcases List.mem_append.mp h' with hj | hb
      · rcases mem_joinSep hj with hs | ⟨t, ht, hc⟩
        · rcases List.mem_cons.mp hs with h1 | h2
          · exact Or.inr (Or.inr (Or.inl h1))
          · simp only [List.mem_singleton] at h2
            exact Or.inr (Or.inr (Or.inr (Or.inl h2)))
        · exact Or.inr (Or.inr (Or.inr (Or.inr ⟨t, ht, hc⟩)))
      · simp only [List.mem_singleton] at hb
        exact Or.inr (Or.inl hb)
  · rcases List.mem_cons.mp h with h1 | h2
    · exact Or.inl h1
    · simp only [List.mem_singleton] at h2
      exact Or.inr (Or.inl h2)

theorem tagsStr_getLast (tags : List Str) : (tagsStr tags).getLast? = some ']' := by
  unfold tagsStr
  split
  · show (('[' :: joinSep ((", ").data) tags) ++ [']']).getLast? = some ']'
    exact List.getLast?_concat _
  · rfl

/-- Every character a valid timestamp formats to is a separator or digit. -/
theorem formatRFC3339_chars (t : DateTime) (hv : t.Valid) :
    ∀ c ∈ formatRFC3339 t,
      c = '-' ∨ c = 'T' ∨ c = ':' ∨ c = 'Z' ∨ ∃ k, k < 10 ∧ c = digitChar k := by
  obtain ⟨h9999, hmo1, hmo2, hd1, hd2, hh, hmi, hs⟩ := hv
  have hd31 : t.day ≤ 31 := le_trans hd2 (daysInMonth_le t.year t.month)
  intro c hc
  rw [formatRFC3339_eq] at hc
  simp only [List.mem_cons, List.not_mem_nil, or_false] at hc
  rcases hc with h | h | h | h | h | h | h | h | h | h | h | h | h | h | h | h | h | h | h | h
  · exact Or.inr (Or.inr (Or.inr (Or.inr ⟨t.year / 1000, by omega, h⟩)))
  · exact Or.inr (Or.inr (Or.inr (Or.inr ⟨t.year / 100 % 10, by omega, h⟩)))
  · exact Or.inr (Or.inr (Or.inr (Or.inr ⟨t.year / 10 % 10, by omega, h⟩)))
  · exact Or.inr (Or.inr (Or.inr (Or.inr ⟨t.year % 10, by omega, h⟩)))
  · exact Or.inl h
  · exact Or.inr (Or.inr (Or.inr (Or.inr ⟨t.month / 10, by omega, h⟩)))
  · exact Or.inr (Or.inr (Or.inr (Or.inr ⟨t.month % 10, by omega, h⟩)))
  · exact Or.inl h
  · exact Or.inr (Or.inr (Or.inr (Or.inr ⟨t.day / 10, by omega, h⟩)))
  · exact Or.inr (Or.inr (Or.inr (Or.inr ⟨t.day % 10, by omega, h⟩)))
  · exact Or.inr (Or.inl h)
  · exact Or.inr (Or.inr (Or.inr (Or.inr ⟨t.hour / 10, by omega, h⟩)))
  · exact Or.inr (Or.inr (Or.inr (Or.inr ⟨t.hour % 10, by omega, h⟩)))
  · exact Or.inr (Or.inr (Or.inl h))
  · exact Or.inr (Or.inr (Or.inr (Or.inr ⟨t.minute / 10, by omega, h⟩)))
  · exact Or.inr (Or.inr (Or.inr (Or.inr ⟨t.minute % 10, by omega, h⟩)))
  · exact Or.inr (Or.inr (Or.inl h))
  · exact Or.inr (Or.inr (Or.inr (Or.inr ⟨t.second / 10, by omega, h⟩)))
  · exact Or.inr (Or.inr (Or.inr (Or.inr ⟨t.second % 10, by omega, h⟩)))
  · exact Or.inr (Or.inr (Or.inr (Or.inl h)))

theorem formatRFC3339_no_nl (t : DateTime) (hv : t.Valid) : '\n' ∉ formatRFC3339 t := by
  intro h
  rcases formatRFC3339_chars t hv '\n' h with h' | h' | h' | h' | ⟨k, hk, h'⟩
  · exact absurd h' (by decide)
  · exact absurd h' (by decide)
  · exact absurd h' (by decide)
  · exact absurd h' (by decide)
  · exact absurd h'.symm (digit_facts k hk).2.2.2.2.1

theorem formatRFC3339_no_cr (t : DateTime) (hv : t.Valid) : '\r' ∉ formatRFC3339 t := by
  intro h
  rcases formatRFC3339_chars t hv '\r' h with h' | h' | h' | h' | ⟨k, hk, h'⟩
  · exact absurd h' (by decide)
  · exact absurd h' (by decide)
  · exact absurd h' (by decide)
  · exact absurd h' (by decide)
  · exact absurd h'.symm (digit_facts k hk).2.2.2.2.2.1

theorem formatRFC3339_head (t : DateTime) :
    (formatRFC3339 t).head? = some (digitChar (t.year / 1000)) := by
  rw [formatRFC3339_eq]
  rfl

theorem formatRFC3339_getLast (t : DateTime) : (formatRFC3339 t).getLast? = some 'Z' := by
  rw [formatRFC3339_eq]
  rfl

/-- A well-formed title: nonempty, no newline, no surrounding whitespace
(the header stores `title: <t>` on one line and trims the value). -/
def WfTitle (t : Str) : Prop :=
  t ≠ [] ∧ '\n' ∉ t ∧ t.head?.all (fun c => !isSpaceChar c) = true ∧
    t.getLast?.all (fun c => !isSpaceChar c) = true

/-- A well-formed tag: nonempty; without newline, comma or square bracket;
no surrounding whitespace and not quoted (the header stores tags as a
bracketed comma-separated list and strips quotes). -/
def WfTag (t : Str) : Prop :=
  t ≠ [] ∧ (∀ c ∈ t, ¬c = '\n' ∧ ¬c = ',' ∧ ¬c = '[' ∧ ¬c = ']') ∧
    t.head?.all (fun c => !(isSpaceChar c || decide (c = '"') || decide (c = '\''))) = true ∧
    t.getLast?.all (fun c => !(isSpaceChar c || decide (c = '"') || decide (c = '\''))) = true

instance (t : Str) : Decidable (WfTitle t) := by unfold WfTitle; infer_instance

instance (t : Str) : Decidable (WfTag t) := by unfold WfTag; infer_instance

theorem option_all_some {p : Char → Bool} {o : Option Char} (h : o.all p = true) :
    ∀ c, o = some c → p c = true := by
  intro c hc
  rw [hc] at h
  simpa [Option.all] using h

theorem wfTitle_ends {t : Str} (h : WfTitle t) :
    (∀ c, t.head? = some c → isSpaceChar c = false) ∧
      (∀ c, t.getLast? = some c → isSpaceChar c = false) := by
  refine ⟨fun c hc => ?_, fun c hc => ?_⟩
  · simpa using option_all_some h.2.2.1 c hc
  · simpa using option_all_some h.2.2.2 c hc

theorem wfTag_ends {t : Str} (h : WfTag t) :
    (∀ c, t.head? = some c → isSpaceChar c = false ∧ ¬c = '"' ∧ ¬c = '\'') ∧
      (∀ c, t.getLast? = some c → isSpaceChar c = false ∧ ¬c = '"' ∧ ¬c = '\'') := by
  constructor
  · intro c hc
    have := option_all_some h.2.2.1 c hc
    simpa [and_assoc] using this
  · intro c hc
    have := option_all_some h.2.2.2 c hc
    simpa [and_assoc] using this

/-- The single-character variant of `indexOf_close`: the first occurrence of
a character standing right after a chunk free of it. -/
theorem indexOf_char_append {c : Char} {a : Str} (b : Str) (ha : c ∉ a) :
    indexOf? [c] (a ++ c :: b) = some a.length := by
  induction a with
  | nil => simp [indexOf?, List.isPrefixOf]
  | cons x a' ih =>
    have hx : ¬x = c := fun h => ha (h ▸ List.mem_cons_self _ _)
    have hpre : List.isPrefixOf [c] (x :: (a' ++ c :: b)) = false := by
      simp only [List.isPrefixOf, Bool.and_eq_false_iff]
      left
      exact beq_eq_false_iff_ne.mpr fun h => hx h.symm
    rw [List.cons_append, indexOf?, hpre]
    simp only [Bool.false_eq_true, if_false]
    rw [ih fun h => ha (List.mem_cons_of_mem _ h)]
    simp

/-- Trimming a single leading space from a string with clean ends. -/
theorem trimSpace_space_cons {X : Str}
    (hh : ∀ c, X.head? = some c → isSpaceChar c = false)
    (hl : ∀ c, X.getLast? = some c → isSpaceChar c = false) :
    trimSpace (' ' :: X) = X := by
  unfold trimSpace
  have h1 : trimLeftWhile isSpaceChar (' ' :: X) = trimLeftWhile isSpaceChar X := by
    simp [trimLeftWhile, List.dropWhile_cons, isSpaceChar]
  rw [h1, trimLeftWhile_eq_self hh, trimRightWhile_eq_self hl]

/-- How the header loop reads a line `key: value` the builder wrote. -/
theorem metaLine_kv (key X : Str) (hk : ':' ∉ key) (hks : trimSpace key = key)
    (hh : ∀ c, X.head? = some c → isSpaceChar c = false)
    (hl : ∀ c, X.getLast? = some c → isSpaceChar c = false) :
    metaLine (key ++ ':' :: ' ' :: X) = some (key, X) := by
  unfold metaLine
  rw [indexOf_char_append _ hk]
  have htake : (key ++ ':' :: ' ' :: X).take key.length = key := List.take_left' rfl
  have hdrop : (key ++ ':' :: ' ' :: X).drop (key.length + 1) = ' ' :: X := by
    have h1 : (key ++ ':' :: ' ' :: X).drop key.length = ':' :: ' ' :: X :=
      List.drop_left' rfl
    have h2 : (key ++ ':' :: ' ' :: X).drop (key.length + 1) =
        ((key ++ ':' :: ' ' :: X).drop key.length).drop 1 := by
      rw [List.drop_drop]
    rw [h2, h1]
    rfl
  show some (trimSpace ((key ++ ':' :: ' ' :: X).take key.length),
      trimSpace ((key ++ ':' :: ' ' :: X).drop (key.length + 1))) = some (key, X)
  rw [htake, hdrop, hks, trimSpace_space_cons hh hl]

theorem trimLeftWhile_cons_strip {p : Char → Bool} {c : Char} {s : Str} (hc : p c = true)
    (hh : ∀ x, s.head? = some x → p x = false) : trimLeftWhile p (c :: s) = s := by
  have h1 : trimLeftWhile p (c :: s) = trimLeftWhile p s := by
    simp [trimLeftWhile, List.dropWhile_cons, hc]
  rw [h1, trimLeftWhile_eq_self hh]

theorem trimRightWhile_concat_strip {p : Char → Bool} {c : Char} {s : Str} (hc : p c = true)
    (hl : ∀ x, s.getLast? = some x → p x = false) : trimRightWhile p (s ++ [c]) = s := by
  unfold trimRightWhile
  rw [List.reverse_append]
  have h1 : List.dropWhile p ([c].reverse ++ s.reverse) = List.dropWhile p s.reverse := by
    simp [List.dropWhile_cons, hc]
  rw [h1]
  have h2 : List.dropWhile p s.reverse = s.reverse := by
    have := trimLeftWhile_eq_self (p := p) (s := s.reverse) ?_
    · exact this
    · intro x hx
      rw [List.head?_reverse] at hx
      exact hl x hx
  rw [h2, List.reverse_reverse]

/-- Stripping the surrounding brackets the tag serializer writes. -/
theorem trimCut_brackets {inner : Str} (hne : inner ≠ [])
    (hh : ∀ c, inner.head? = some c → ¬c = '[' ∧ ¬c = ']')
    (hl : ∀ c, inner.getLast? = some c → ¬c = '[' ∧ ¬c = ']') :
    trimCut ['[', ']'] ('[' :: (inner ++ [']'])) = inner := by
  unfold trimCut
  have hstep : trimLeftWhile (fun c => decide (c ∈ ['[', ']'])) ('[' :: (inner ++ [']'])) =
      inner ++ [']'] := by
    refine trimLeftWhile_cons_strip (by decide) ?_
    intro x hx
    rw [List.head?_append_of_ne_nil _ hne] at hx
    have := hh x hx
    simp [this.1, this.2]
  rw [hstep]
  refine trimRightWhile_concat_strip (by decide) ?_
  intro x hx
  have := hl x hx
  simp [this.1, this.2]

theorem parseTagElem_wf {t : Str} (h : WfTag t) : parseTagElem t = some t := by
  have hne := h.1
  have hh := (wfTag_ends h).1
  have hl := (wfTag_ends h).2
  have hts : trimSpace t = t :=
    trimLR_eq_self (fun c hc => (hh c hc).1) (fun c hc => (hl c hc).1)
  have htc : trimRightWhile (fun c => decide (c ∈ ['"', '\'']))
      (trimLeftWhile (fun c => decide (c ∈ ['"', '\''])) t) = t := by
    refine trimLR_eq_self ?_ ?_
    · intro c hc
      have := hh c hc
      simp [this.2.1, this.2.2]
    · intro c hc
      have := hl c hc
      simp [this.2.1, this.2.2]
  unfold parseTagElem trimCut
  rw [hts, htc]
  simp [hne]

theorem parseTagElem_space {t : Str} (h : WfTag t) : parseTagElem (' ' :: t) = some t := by
  have hne := h.1
  have hh := (wfTag_ends h).1
  have hl := (wfTag_ends h).2
  have hts : trimSpace (' ' :: t) = t :=
    trimSpace_space_cons (fun c hc => (hh c hc).1) (fun c hc => (hl c hc).1)
  have htc : trimRightWhile (fun c => decide (c ∈ ['"', '\'']))
      (trimLeftWhile (fun c => decide (c ∈ ['"', '\''])) t) = t := by
    refine trimLR_eq_self ?_ ?_
    · intro c hc
      have := hh c hc
      simp [this.2.1, this.2.2]
    · intro c hc
      have := hl c hc
      simp [this.2.1, this.2.2]
  unfold parseTagElem trimCut
  rw [hts, htc]
  simp [hne]

/-- Splitting the comma-joined tag list back into its elements. -/
theorem splitChar_joinSep (t0 : Str) (ts : List Str)
    (h : ∀ t ∈ t0 :: ts, ',' ∉ t) :
    splitChar ',' (joinSep ((", ").data) (t0 :: ts)) = t0 :: ts.map (fun t => ' ' :: t) := by
  induction ts generalizing t0 with
  | nil => exact splitChar_of_not_mem (h t0 (List.mem_cons_self _ _))
  | cons t1 ts' ih =>
    have h0 : ',' ∉ t0 := h t0 (List.mem_cons_self _ _)
    have hj : joinSep ((", ").data) (t0 :: t1 :: ts') =
        t0 ++ ',' :: ' ' :: joinSep ((", ").data) (t1 :: ts') := by
      rw [joinSep]
      simp [List.append_assoc]
    rw [hj, splitChar_append_cons _ h0]
    have hrec := ih t1 fun t ht => h t (List.mem_cons_of_mem _ ht)
    have hsp : splitChar ',' (' ' :: joinSep ((", ").data) (t1 :: ts')) =
        (' ' :: t1) :: ts'.map (fun t => ' ' :: t) := by
      rw [splitChar, if_neg (by decide), hrec]
    rw [hsp]
    rfl

theorem joinSep_ne_nil (t0 : Str) (ts : List Str) (h : ∀ t ∈ t0 :: ts, t ≠ []) :
    joinSep ((", ").data) (t0 :: ts) ≠ [] := by
  cases ts with
  | nil => exact h t0 (List.mem_cons_self _ _)
  | cons t1 ts' =>
    rw [joinSep]
    intro hcontra
    rcases List.append_eq_nil.mp hcontra with ⟨h1, _⟩
    rcases List.append_eq_nil.mp h1 with ⟨h2, _⟩
    exact h t0 (List.mem_cons_self _ _) h2

theorem joinSep_head (t0 : Str) (ts : List Str) (h0 : t0 ≠ []) :
    (joinSep ((", ").data) (t0 :: ts)).head? = t0.head? := by
  cases ts with
  | nil => rfl
  | cons t1 ts' =>
    rw [joinSep, List.append_assoc, List.head?_append_of_ne_nil _ h0]

theorem joinSep_getLast (t0 : Str) (ts : List Str) (h : ∀ t ∈ t0 :: ts, t ≠ []) :
    ∃ t ∈ t0 :: ts, (joinSep ((", ").data) (t0 :: ts)).getLast? = t.getLast? := by
  induction ts generalizing t0 with
  | nil => exact ⟨t0, List.mem_cons_self _ _, rfl⟩
  | cons t1 ts' ih =>
    obtain ⟨t, ht, heq⟩ := ih t1 fun t ht => h t (List.mem_cons_of_mem _ ht)
    refine ⟨t, List.mem_cons_of_mem _ ht, ?_⟩
    rw [joinSep, List.append_assoc,
      List.getLast?_append_of_ne_nil _ ?_, List.getLast?_append_of_ne_nil _ ?_, heq]
    · exact joinSep_ne_nil t1 ts' fun t ht => h t (List.mem_cons_of_mem _ ht)
    · intro hcontra
      rcases List.append_eq_nil.mp hcontra with ⟨_, h2⟩
      exact joinSep_ne_nil t1 ts' (fun t ht => h t (List.mem_cons_of_mem _ ht)) h2

/-- Parsing back the tag list the builder serialized. -/
theorem parseTags_roundtrip (tags : List Str) (h : ∀ t ∈ tags, WfTag t) :
    parseTags (tagsStr tags) = tags := by
  cases tags with
  | nil => decide
  | cons t0 ts =>
    have hwf0 := h t0 (List.mem_cons_self _ _)
    have hne : ∀ t ∈ t0 :: ts, t ≠ [] := fun t ht => (h t ht).1
    have hnc : ∀ t ∈ t0 :: ts, ',' ∉ t := fun t ht hc => ((h t ht).2.1 ',' hc).2.1 rfl
    have hts : tagsStr (t0 :: ts) =
        '[' :: (joinSep ((", ").data) (t0 :: ts) ++ [']']) := by
      unfold tagsStr
      rw [if_pos (by simp)]
      rfl
    have hinner_ne : joinSep ((", ").data) (t0 :: ts) ≠ [] := joinSep_ne_nil t0 ts hne
    have hinner_h : ∀ c, (joinSep ((", ").data) (t0 :: ts)).head? = some c →
        ¬c = '[' ∧ ¬c = ']' := by
      intro c hc
      rw [joinSep_head t0 ts (hne t0 (List.mem_cons_self _ _))] at hc
      have hcm : c ∈ t0 := List.mem_of_mem_head? hc
      have := (h t0 (List.mem_cons_self _ _)).2.1 c hcm
      exact ⟨this.2.2.1, this.2.2.2⟩
    have hinner_l : ∀ c, (joinSep ((", ").data) (t0 :: ts)).getLast? = some c →
        ¬c = '[' ∧ ¬c = ']' := by
      intro c hc
      obtain ⟨t, ht, heq⟩ := joinSep_getLast t0 ts hne
      rw [heq] at hc
      have hcm : t ∈ t0 :: ts := ht
      have := (h t hcm).2.1 c (mem_of_getLast?_eq hc)
      exact ⟨this.2.2.1, this.2.2.2⟩
    unfold parseTags
    rw [hts, trimCut_brackets hinner_ne hinner_h hinner_l, if_neg hinner_ne,
      splitChar_joinSep t0 ts hnc]
    rw [List.filterMap_cons]
    rw [parseTagElem_wf hwf0]
    have hmap : ∀ l : List Str, (∀ t ∈ l, WfTag t) →
        (l.map fun t => ' ' :: t).filterMap parseTagElem = l := by
      intro l
      induction l with
      | nil => intro _; rfl
      | cons x xs ih =>
        intro hl
        rw [List.map_cons, List.filterMap_cons, parseTagElem_space (hl x (List.mem_cons_self _ _))]
        rw [ih fun t ht => hl t (List.mem_cons_of_mem _ ht)]
    rw [hmap ts fun t ht => h t (List.mem_cons_of_mem _ ht)]

theorem tagsStr_head (tags : List Str) : (tagsStr tags).head? = some '[' := by
  unfold tagsStr
  split
  · rfl
  · rfl

theorem tagsStr_no_nl {tags : List Str} (h : ∀ t ∈ tags, WfTag t) :
    '\n' ∉ tagsStr tags := by
  intro hmem
  rcases mem_tagsStr hmem with h1 | h1 | h1 | h1 | ⟨t, ht, hc⟩
  · exact absurd h1 (by decide)
  · exact absurd h1 (by decide)
  · exact absurd h1 (by decide)
  · exact absurd h1 (by decide)
  · exact ((h t ht).2.1 '\n' hc).1 rfl

theorem formatRFC3339_ends (t : DateTime) (hv : t.Valid) :
    (∀ c, (formatRFC3339 t).head? = some c → isSpaceChar c = false) ∧
      (∀ c, (formatRFC3339 t).getLast? = some c → isSpaceChar c = false) := by
  constructor
  · intro c hc
    rw [formatRFC3339_head, Option.some.injEq] at hc
    rw [← hc]
    exact digitChar_not_space _ (by have := hv.1; omega)
  · intro c hc
    rw [formatRFC3339_getLast, Option.some.injEq] at hc
    rw [← hc]
    decide

theorem splitChar_fmLines (n : Note) (ht : '\n' ∉ n.title) (hg : '\n' ∉ tagsStr n.tags)
    (hc : '\n' ∉ formatRFC3339 n.created) (hu : '\n' ∉ formatRFC3339 n.updated) :
    splitChar '\n' (fmLines n) =
      [("title: ").data ++ n.title, ("tags: ").data ++ tagsStr n.tags,
        ("created: ").data ++ formatRFC3339 n.created,
        ("updated: ").data ++ formatRFC3339 n.updated] := by
  have m1 : '\n' ∉ ("title: ").data ++ n.title := by
    intro hmem
    rcases List.mem_append.mp hmem with h | h
    · exact absurd h (by decide)
    · exact ht h
  have m2 : '\n' ∉ ("tags: ").data ++ tagsStr n.tags := by
    intro hmem
    rcases List.mem_append.mp hmem with h | h
    · exact absurd h (by decide)
    · exact hg h
  have m3 : '\n' ∉ ("created: ").data ++ formatRFC3339 n.created := by
    intro hmem
    rcases List.mem_append.mp hmem with h | h
    · exact absurd h (by decide)
    · exact hc h
  have m4 : '\n' ∉ ("updated: ").data ++ formatRFC3339 n.updated := by
    intro hmem
    rcases List.mem_append.mp hmem with h | h
    · exact absurd h (by decide)
    · exact hu h
  unfold fmLines
  rw [splitChar_append_cons _ m1, splitChar_append_cons _ m2, splitChar_append_cons _ m3,
    splitChar_of_not_mem m4]

/-- The `\n---` delimiter scan cannot fire early inside the header lines. -/
theorem nlDash_fmLines (n : Note) (htnl : '\n' ∉ n.title)
    (hg : '\n' ∉ tagsStr n.tags) (hnlC : '\n' ∉ formatRFC3339 n.created)
    (hnlU : '\n' ∉ formatRFC3339 n.updated) :
    noPair nlDashPair ('\n' :: fmLines n) = true := by
  have fst_of_append : ∀ (lit X : Str), '\n' ∉ lit → '\n' ∉ X →
      ∀ c ∈ lit ++ X, ∀ d, nlDashPair c d = false := by
    intro lit X hlit hX c hcm d
    refine nlDash_fst_of_ne ?_ d
    intro he
    rcases List.mem_append.mp hcm with h | h
    · exact hlit (he ▸ h)
    · exact hX (he ▸ h)
  have u0 : noPair nlDashPair (("updated: ").data ++ formatRFC3339 n.updated) = true :=
    noPair_of_all_fst (fst_of_append _ _ (by decide) hnlU)
  have u1 : noPair nlDashPair
      ('\n' :: (("updated: ").data ++ formatRFC3339 n.updated)) = true := by
    refine noPair_cons_of_head ?_ u0
    intro y hy
    have h0 : (("updated: ").data ++ formatRFC3339 n.updated).head? = some 'u' := rfl
    rw [h0, Option.some.injEq] at hy
    rw [← hy]
    decide
  have u2 : noPair nlDashPair ((("created: ").data ++ formatRFC3339 n.created)
      ++ '\n' :: (("updated: ").data ++ formatRFC3339 n.updated)) = true :=
    noPair_append_of_fst (fst_of_append _ _ (by decide) hnlC) u1
  have u3 : noPair nlDashPair ('\n' :: ((("created: ").data ++ formatRFC3339 n.created)
      ++ '\n' :: (("updated: ").data ++ formatRFC3339 n.updated))) = true := by
    refine noPair_cons_of_head ?_ u2
    intro y hy
    have h0 : ((("created: ").data ++ formatRFC3339 n.created)
        ++ '\n' :: (("updated: ").data ++ formatRFC3339 n.updated)).head? = some 'c' := rfl
    rw [h0, Option.some.injEq] at hy
    rw [← hy]
    decide
  have u4 : noPair nlDashPair ((("tags: ").data ++ tagsStr n.tags)
      ++ '\n' :: ((("created: ").data ++ formatRFC3339 n.created)
      ++ '\n' :: (("updated: ").data ++ formatRFC3339 n.updated))) = true :=
    noPair_append_of_fst (fst_of_append _ _ (by decide) hg) u3
  have u5 : noPair nlDashPair ('\n' :: ((("tags: ").data ++ tagsStr n.tags)
      ++ '\n' :: ((("created: ").data ++ formatRFC3339 n.created)
      ++ '\n' :: (("updated: ").data ++ formatRFC3339 n.updated)))) = true := by
    refine noPair_cons_of_head ?_ u4
    intro y hy
    have h0 : ((("tags: ").data ++ tagsStr n.tags)
        ++ '\n' :: ((("created: ").data ++ formatRFC3339 n.created)
        ++ '\n' :: (("updated: ").data ++ formatRFC3339 n.updated))).head? = some 't' := rfl
    rw [h0, Option.some.injEq] at hy
    rw [← hy]
    decide
  have u6 : noPair nlDashPair ((("title: ").data ++ n.title)
      ++ '\n' :: ((("tags: ").data ++ tagsStr n.tags)
      ++ '\n' :: ((("created: ").data ++ formatRFC3339 n.created)
      ++ '\n' :: (("updated: ").data ++ formatRFC3339 n.updated)))) = true :=
    noPair_append_of_fst (fst_of_append _ _ (by decide) htnl) u5
  refine noPair_cons_of_head ?_ u6
  intro y hy
  have h0 : (fmLines n).head? = some 't' := rfl
  rw [h0, Option.some.injEq] at hy
  rw [← hy]
  decide

/-- No CRLF pair occurs in a well-formed built header. -/
theorem crlf_content (n : Note) (ht : WfTitle n.title) (htags : ∀ t ∈ n.tags, WfTag t)
    (hcv : n.created.Valid) (huv : n.updated.Valid) :
    noPair crlfPair ('-' :: '-' :: '-' :: '\n' ::
      (fmLines n ++ '\n' :: '-' :: '-' :: '-' :: ['\n', '\n'])) = true := by
  obtain ⟨htne, htnl, hth, htl⟩ := ht
  have snd_of_append : ∀ (lit X : Str), '\n' ∉ lit → '\n' ∉ X →
      ∀ d ∈ lit ++ X, ∀ c, crlfPair c d = false := by
    intro lit X hlit hX d hdm c
    have hd : ¬d = '\n' := by
      intro he
      rcases List.mem_append.mp hdm with h | h
      · exact hlit (he ▸ h)
      · exact hX (he ▸ h)
    simp [crlfPair, hd]
  have hnlG : '\n' ∉ tagsStr n.tags := tagsStr_no_nl htags
  have hnlC := formatRFC3339_no_nl n.created hcv
  have hnlU := formatRFC3339_no_nl n.updated huv
  have tail0 : noPair crlfPair ('\n' :: '-' :: '-' :: '-' :: ['\n', '\n']) = true := by decide
  have w1 : noPair crlfPair ((("updated: ").data ++ formatRFC3339 n.updated)
      ++ '\n' :: '-' :: '-' :: '-' :: ['\n', '\n']) = true := by
    refine noPair_append (noPair_of_all_snd (snd_of_append _ _ (by decide) hnlU)) ?_ tail0
    intro x y hx _
    rw [List.getLast?_append_of_ne_nil _ (by
      rw [formatRFC3339_eq]
      exact List.cons_ne_nil _ _), formatRFC3339_getLast, Option.some.injEq] at hx
    rw [← hx]
    exact crlf_fst_of_ne (by decide) y
  have w2 : noPair crlfPair ('\n' :: ((("updated: ").data ++ formatRFC3339 n.updated)
      ++ '\n' :: '-' :: '-' :: '-' :: ['\n', '\n'])) = true :=
    noPair_cons_of_head (fun y _ => crlf_fst_of_ne (c := '\n') (by decide) y) w1
  have w3 : noPair crlfPair ((("created: ").data ++ formatRFC3339 n.created)
      ++ '\n' :: ((("updated: ").data ++ formatRFC3339 n.updated)
      ++ '\n' :: '-' :: '-' :: '-' :: ['\n', '\n'])) = true := by
    refine noPair_append (noPair_of_all_snd (snd_of_append _ _ (by decide) hnlC)) ?_ w2
    intro x y hx _
    rw [List.getLast?_append_of_ne_nil _ (by
      rw [formatRFC3339_eq]
      exact List.cons_ne_nil _ _), formatRFC3339_getLast, Option.some.injEq] at hx
    rw [← hx]
    exact crlf_fst_of_ne (by decide) y
  have w4 : noPair crlfPair ('\n' :: ((("created: ").data ++ formatRFC3339 n.created)
      ++ '\n' :: ((("updated: ").data ++ formatRFC3339 n.updated)
      ++ '\n' :: '-' :: '-' :: '-' :: ['\n', '\n']))) = true :=
    noPair_cons_of_head (fun y _ => crlf_fst_of_ne (c := '\n') (by decide) y) w3
  have w5 : noPair crlfPair ((("tags: ").data ++ tagsStr n.tags)
      ++ '\n' :: ((("created: ").data ++ formatRFC3339 n.created)
      ++ '\n' :: ((("updated: ").data ++ formatRFC3339 n.updated)
      ++ '\n' :: '-' :: '-' :: '-' :: ['\n', '\n'])))= true := by
    refine noPair_append (noPair_of_all_snd (snd_of_append _ _ (by decide) hnlG)) ?_ w4
    intro x y hx _
    rw [List.getLast?_append_of_ne_nil _ (by
      rw [tagsStr]
      split
      · exact List.cons_ne_nil _ _
      · exact List.cons_ne_nil _ _), tagsStr_getLast, Option.some.injEq] at hx
    rw [← hx]
    exact crlf_fst_of_ne (by decide) y
  have w6 : noPair crlfPair ('\n' :: ((("tags: ").data ++ tagsStr n.tags)
      ++ '\n' :: ((("created: ").data ++ formatRFC3339 n.created)
      ++ '\n' :: ((("updated: ").data ++ formatRFC3339 n.updated)
      ++ '\n' :: '-' :: '-' :: '-' :: ['\n', '\n'])))) = true :=
    noPair_cons_of_head (fun y _ => crlf_fst_of_ne (c := '\n') (by decide) y) w5
  have w7 : noPair crlfPair ((("title: ").data ++ n.title)
      ++ '\n' :: ((("tags: ").data ++ tagsStr n.tags)
      ++ '\n' :: ((("created: ").data ++ formatRFC3339 n.created)
      ++ '\n' :: ((("updated: ").data ++ formatRFC3339 n.updated)
      ++ '\n' :: '-' :: '-' :: '-' :: ['\n', '\n']))))= true := by
    refine noPair_append (noPair_of_all_snd (snd_of_append _ _ (by decide) htnl)) ?_ w6
    intro x y hx _
    rw [List.getLast?_append_of_ne_nil _ htne] at hx
    have hxs := (wfTitle_ends ⟨htne, htnl, hth, htl⟩).2 x hx
    refine crlf_fst_of_ne ?_ y
    intro he
    rw [he] at hxs
    exact absurd hxs (by decide)
  have w8 : noPair crlfPair ('\n' :: ((("title: ").data ++ n.title)
      ++ '\n' :: ((("tags: ").data ++ tagsStr n.tags)
      ++ '\n' :: ((("created: ").data ++ formatRFC3339 n.created)
      ++ '\n' :: ((("updated: ").data ++ formatRFC3339 n.updated)
      ++ '\n' :: '-' :: '-' :: '-' :: ['\n', '\n']))))) = true :=
    noPair_cons_of_head (fun y _ => crlf_fst_of_ne (c := '\n') (by decide) y) w7
  have hassoc : fmLines n ++ '\n' :: '-' :: '-' :: '-' :: ['\n', '\n'] =
      (("title: ").data ++ n.title)
        ++ '\n' :: ((("tags: ").data ++ tagsStr n.tags)
        ++ '\n' :: ((("created: ").data ++ formatRFC3339 n.created)
        ++ '\n' :: ((("updated: ").data ++ formatRFC3339 n.updated)
        ++ '\n' :: '-' :: '-' :: '-' :: ['\n', '\n']))) := by
    unfold fmLines
    simp [List.append_assoc]
  rw [hassoc]
  exact noPair_cons_cons (by decide) (noPair_cons_cons (by decide)
    (noPair_cons_cons (by decide) w8))

/-- C1: for every Note with a well-formed title, tags and valid timestamps,
parsing the text produced by `BuildFrontmatter` (via `ParseFrontmatter` and
the field extraction of `NoteFromRaw`) yields the same title, the same tag
list, and the same created and updated timestamps. -/
theorem c1_frontmatter_roundtrip (n : Note) (id fname : Str) (modTime : DateTime)
    (ht : WfTitle n.title) (htags : ∀ t ∈ n.tags, WfTag t)
    (hcv : n.created.Valid) (huv : n.updated.Valid) :
    (noteFromRaw id fname (buildFrontmatter n) modTime).title = n.title ∧
    (noteFromRaw id fname (buildFrontmatter n) modTime).tags = n.tags ∧
    (noteFromRaw id fname (buildFrontmatter n) modTime).created = n.created ∧
    (noteFromRaw id fname (buildFrontmatter n) modTime).updated = n.updated := by
  have htne := ht.1
  have htnl := ht.2.1
  have hth := (wfTitle_ends ht).1
  have htl := (wfTitle_ends ht).2
  have hnlG : '\n' ∉ tagsStr n.tags := tagsStr_no_nl htags
  have hnlC := formatRFC3339_no_nl n.created hcv
  have hnlU := formatRFC3339_no_nl n.updated huv
  have h2 := nlDash_fmLines n htnl hnlG hnlC hnlU
  have h1 := crlf_content n ht htags hcv huv
  have hparse : parseFrontmatter (buildFrontmatter n) =
      (collectMeta (splitChar '\n' (fmLines n)),
        trimLeftWhile (fun c => decide (c = '\n')) ['\n', '\n']) := by
    rw [buildFrontmatter_shape n]
    exact parseFrontmatter_shape (fmLines n) ['\n', '\n'] h1 h2
  have q1 : metaLine (("title: ").data ++ n.title) = some ((("title").data), n.title) :=
    metaLine_kv (("title").data) n.title (by decide) (by decide) hth htl
  have hGh : ∀ c, (tagsStr n.tags).head? = some c → isSpaceChar c = false := by
    intro c hc
    rw [tagsStr_head, Option.some.injEq] at hc
    rw [← hc]
    decide
  have hGl : ∀ c, (tagsStr n.tags).getLast? = some c → isSpaceChar c = false := by
    intro c hc
    rw [tagsStr_getLast, Option.some.injEq] at hc
    rw [← hc]
    decide
  have q2 : metaLine (("tags: ").data ++ tagsStr n.tags) =
      some ((("tags").data), tagsStr n.tags) :=
    metaLine_kv (("tags").data) (tagsStr n.tags) (by decide) (by decide) hGh hGl
  have hCends := formatRFC3339_ends n.created hcv
  have hUends := formatRFC3339_ends n.updated huv
  have q3 : metaLine (("created: ").data ++ formatRFC3339 n.created) =
      some ((("created").data), formatRFC3339 n.created) :=
    metaLine_kv (("created").data) _ (by decide) (by decide) hCends.1 hCends.2
  have q4 : metaLine (("updated: ").data ++ formatRFC3339 n.updated) =
      some ((("updated").data), formatRFC3339 n.updated) :=
    metaLine_kv (("updated").data) _ (by decide) (by decide) hUends.1 hUends.2
  have hmeta : collectMeta (splitChar '\n' (fmLines n)) =
      [((("title").data), n.title), ((("tags").data), tagsStr n.tags),
        ((("created").data), formatRFC3339 n.created),
        ((("updated").data), formatRFC3339 n.updated)] := by
    rw [splitChar_fmLines n htnl hnlG hnlC hnlU]
    unfold collectMeta
    simp only [List.filterMap_cons, q1, q2, q3, q4]
    rfl
  have g1 : metaGet [((("title").data), n.title), ((("tags").data), tagsStr n.tags),
      ((("created").data), formatRFC3339 n.created),
      ((("updated").data), formatRFC3339 n.updated)] (("title").data) = n.title := rfl
  have g2 : metaGet [((("title").data), n.title), ((("tags").data), tagsStr n.tags),
      ((("created").data), formatRFC3339 n.created),
      ((("updated").data), formatRFC3339 n.updated)] (("tags").data) = tagsStr n.tags := rfl
  have g3 : metaGet [((("title").data), n.title), ((("tags").data), tagsStr n.tags),
      ((("created").data), formatRFC3339 n.created),
      ((("updated").data), formatRFC3339 n.updated)] (("created").data) =
      formatRFC3339 n.created := rfl
  have g4 : metaGet [((("title").data), n.title), ((("tags").data), tagsStr n.tags),
      ((("created").data), formatRFC3339 n.created),
      ((("updated").data), formatRFC3339 n.updated)] (("updated").data) =
      formatRFC3339 n.updated := rfl
  unfold noteFromRaw
  rw [hparse]
  simp only [hmeta, g1, g2, g3, g4]
  refine ⟨?_, ?_, ?_, ?_⟩
  · rw [if_neg htne]
  · exact parseTags_roundtrip n.tags htags
  · rw [parseRFC3339_format n.created hcv]
    rfl
  · rw [parseRFC3339_format n.updated huv]
    rfl

def c1SampleNote : Note :=
  { id := [], title := ("Test").data, tags := [("go").data, ("cli").data],
    created := ⟨2024, 1, 1, 0, 0, 0⟩, updated := ⟨2024, 6, 1, 12, 30, 59⟩,
    body := [], raw := [], filename := [] }

/-- Witness for C1 at a concrete note. -/
theorem c1_frontmatter_roundtrip_witness :
    (WfTitle c1SampleNote.title ∧ (∀ t ∈ c1SampleNote.tags, WfTag t) ∧
      c1SampleNote.created.Valid ∧ c1SampleNote.updated.Valid) ∧
    ((noteFromRaw (("x").data) [] (buildFrontmatter c1SampleNote) ⟨2020, 1, 1, 0, 0, 0⟩).title
        = c1SampleNote.title ∧
      (noteFromRaw (("x").data) [] (buildFrontmatter c1SampleNote) ⟨2020, 1, 1, 0, 0, 0⟩).tags
        = c1SampleNote.tags ∧
      (noteFromRaw (("x").data) [] (buildFrontmatter c1SampleNote) ⟨2020, 1, 1, 0, 0, 0⟩).created
        = c1SampleNote.created ∧
      (noteFromRaw (("x").data) [] (buildFrontmatter c1SampleNote) ⟨2020, 1, 1, 0, 0, 0⟩).updated
        = c1SampleNote.updated) :=
  ⟨⟨by decide, by decide, by decide, by decide⟩,
    c1_frontmatter_roundtrip c1SampleNote (("x").data) [] ⟨2020, 1, 1, 0, 0, 0⟩
      (by decide) (by decide) (by decide) (by decide)⟩

/-! ## The AI client claims (C4, C5) -/

/-- The truncation the spec describes: a body beyond 500 characters is cut
to its first 500 with a marker appended. -/
def truncBody (b : Str) : Str := if 500 < b.length then b.take 500 ++ ("...").data else b

/-- Spec-side reference: the vault context with a given per-note body
transformation applied to every note's body. -/
def vaultBlocksWith (f : Str → Str) : Nat → List NoteContext → Str
  | _, [] => []
  | i, n :: rest =>
    ("--- Note ").data ++ natToChars i ++ (": ").data ++ n.title
      ++ (if 0 < n.tags.length then (" [").data ++ joinSep ((", ").data) n.tags ++ [']'] else [])
      ++ (" ---\n").data ++ f n.body ++ ("\n\n").data ++ vaultBlocksWith f (i + 1) rest

theorem vaultBlocks_over (total : Nat) (htotal : 20 < total) :
    ∀ i l, vaultBlocks total i l = vaultBlocksWith truncBody i l := by
  intro i l
  induction l generalizing i with
  | nil => rfl
  | cons n rest ih =>
    rw [vaultBlocks, vaultBlocksWith, ih]
    unfold vaultBlock truncBody
    by_cases hb : 500 < n.body.length
    · rw [if_pos ⟨htotal, hb⟩, if_pos hb]
    · rw [if_neg (fun h => hb h.2), if_neg hb]

theorem vaultBlocks_under (total : Nat) (htotal : total ≤ 20) :
    ∀ i l, vaultBlocks total i l = vaultBlocksWith id i l := by
  intro i l
  induction l generalizing i with
  | nil => rfl
  | cons n rest ih =>
    rw [vaultBlocks, vaultBlocksWith, ih]
    unfold vaultBlock
    rw [if_neg (fun h => absurd htotal (by omega))]
    simp [List.append_assoc]

/-- C4: `AskVault` truncates note bodies exactly when the vault exceeds 20
notes — above 20 notes every body is passed through the 500-character
truncation, at or below 20 notes every body is passed through unchanged. -/
theorem c4_vault_truncation (ctxs : List NoteContext) :
    (20 < ctxs.length → buildVaultContext ctxs = vaultBlocksWith truncBody 1 ctxs) ∧
      (ctxs.length ≤ 20 → buildVaultContext ctxs = vaultBlocksWith id 1 ctxs) := by
  constructor
  · intro h
    exact vaultBlocks_over ctxs.length h 1 ctxs
  · intro h
    exact vaultBlocks_under ctxs.length h 1 ctxs

/-- C5: with no API credential configured, `Available` reports false and
both `Ask` and `AskVault` return the configuration-missing error without
ever invoking the transport. -/
theorem c5_no_key_short_circuit (model : Str) (post : Transport)
    (ctxs : List NoteContext) (noteTitle noteContent question : Str) :
    available (newClient [] model) = false ∧
      ask (newClient [] model) post noteTitle noteContent question = (.error noKeyMsg, 0) ∧
      askVault (newClient [] model) post ctxs question = (.error noKeyMsg, 0) :=
  ⟨rfl, rfl, rfl⟩

/-! ## Store claims (C7, C8) -/

theorem find?_key_filter (l : FS) (k path : Str) (h : ¬k = path) :
    (l.filter fun q => !(decide (q.1 = path))).find? (fun q => decide (q.1 = k)) =
      l.find? (fun q => decide (q.1 = k)) := by
  induction l with
  | nil => rfl
  | cons a l ih =>
    by_cases ha : a.1 = path
    · have hpa : ¬(fun q : Str × FsEntry => decide (q.1 = k)) a = true := by
        simp only [decide_eq_true_eq]
        intro he
        exact h (he ▸ ha)
      rw [List.filter_cons_of_neg (by simp [ha]),
        List.find?_cons_of_neg (p := fun q : Str × FsEntry => decide (q.1 = k)) _ hpa, ih]
    · rw [List.filter_cons_of_pos (by simp [ha])]
      cases hpa : decide (a.1 = k)
      · rw [List.find?_cons_of_neg (p := fun q : Str × FsEntry => decide (q.1 = k)) _
          (by simp [hpa]),
          List.find?_cons_of_neg (p := fun q : Str × FsEntry => decide (q.1 = k)) _
          (by simp [hpa]), ih]
      · rw [List.find?_cons_of_pos (p := fun q : Str × FsEntry => decide (q.1 = k)) _
          (by simp [hpa]),
          List.find?_cons_of_pos (p := fun q : Str × FsEntry => decide (q.1 = k)) _
          (by simp [hpa])]

theorem fsFind?_write_ne {fs : FS} {path q content : Str} {now : DateTime}
    (h : ¬q = path) : fsFind? (fsWrite fs path content now) q = fsFind? fs q := by
  unfold fsFind? fsWrite
  have hhead : ¬(fun e : Str × FsEntry => decide (e.1 = q))
      (path, ⟨content, now, false, true⟩) = true := by
    simp only [decide_eq_true_eq]
    exact fun he => h he.symm
  rw [List.find?_cons_of_neg (p := fun e : Str × FsEntry => decide (e.1 = q)) _ hhead,
    find?_key_filter fs q path h]

theorem fsFind?_write_self {fs : FS} {path content : Str} {now : DateTime} :
    fsFind? (fsWrite fs path content now) path = some ⟨content, now, false, true⟩ := by
  unfold fsFind? fsWrite
  rw [List.find?_cons]
  simp

/-- C8: `Save` sets the note's updated timestamp to the given current time,
records the new raw serialization, writes at the note's storage location,
and leaves every other field of the note — and every other storage entry —
unchanged. -/
theorem c8_save_frame (fs : FS) (note : Note) (now : DateTime) (p : Str) :
    (storeSave fs note now).1.updated = now ∧
      (storeSave fs note now).1.created = note.created ∧
      (storeSave fs note now).1.id = note.id ∧
      (storeSave fs note now).1.filename = note.filename ∧
      (storeSave fs note now).1.title = note.title ∧
      (storeSave fs note now).1.tags = note.tags ∧
      (storeSave fs note now).1.body = note.body ∧
      (¬p = note.filename →
        fsFind? (storeSave fs note now).2 p = fsFind? fs p) := by
  refine ⟨rfl, rfl, rfl, rfl, rfl, rfl, rfl, ?_⟩
  intro hp
  exact fsFind?_write_ne hp

instance : IsTotal Note updatedDesc := ⟨fun a b => Nat.le_total b.updated.key a.updated.key⟩

instance : IsTrans Note updatedDesc := ⟨fun _ _ _ hab hbc => le_trans hbc hab⟩

/-- C7: `LoadAll` returns a result sorted by updated time descending, and
its members are exactly the notes of the entries that are not directories,
carry the `.md` suffix, and read successfully — an entry that fails to read
is skipped, it does not abort the listing. -/
theorem c7_loadall_sorted_skips (fs : FS) (dir : Str) :
    (storeLoadAll fs dir).Sorted updatedDesc ∧
      ∀ m : Note, m ∈ storeLoadAll fs dir ↔
        ∃ e ∈ fs, e.2.isDir = false ∧
          hasSuffix (baseName e.1) ((".md").data) = true ∧ loadFile fs e.1 = .ok m := by
  constructor
  · exact List.sorted_insertionSort updatedDesc _
  · intro m
    unfold storeLoadAll
    rw [List.Perm.mem_iff (List.perm_insertionSort _ _), List.mem_filterMap]
    constructor
    · rintro ⟨e, he, hf⟩
      by_cases hc : (!e.2.isDir && hasSuffix (baseName e.1) ((".md").data)) = true
      · rw [if_pos hc] at hf
        rcases Bool.and_eq_true_iff.mp hc with ⟨hdir, hsuf⟩
        refine ⟨e, he, by simpa using hdir, hsuf, ?_⟩
        cases hl : loadFile fs e.1 with
        | error a => rw [hl] at hf; cases hf
        | ok a =>
          rw [hl] at hf
          have : a = m := by simpa [Except.toOption] using hf
          rw [this]
      · rw [if_neg hc] at hf
        cases hf
    · rintro ⟨e, he, hdir, hsuf, hload⟩
      refine ⟨e, he, ?_⟩
      rw [if_pos (by simp [hdir, hsuf]), hload]
      rfl

/-! ## Wiki-link extraction (C9) -/

theorem dedupAcc_sublist (seen : List Str) (l : List Str) :
    (dedupAcc seen l).Sublist l := by
  induction l generalizing seen with
  | nil => exact List.Sublist.refl _
  | cons x xs ih =>
    rw [dedupAcc]
    by_cases hx : x ∈ seen
    · rw [if_pos hx]
      exact (ih seen).trans (List.sublist_cons_self x xs)
    · rw [if_neg hx]
      exact List.Sublist.cons₂ x (ih (x :: seen))

theorem dedupAcc_not_mem_seen (seen : List Str) (l : List Str) :
    ∀ x ∈ dedupAcc seen l, x ∉ seen := by
  induction l generalizing seen with
  | nil =>
    intro x hx
    cases hx
  | cons y ys ih =>
    intro x hx
    rw [dedupAcc] at hx
    by_cases hy : y ∈ seen
    · rw [if_pos hy] at hx
      exact ih seen x hx
    · rw [if_neg hy] at hx
      rcases List.mem_cons.mp hx with rfl | hx'
      · exact hy
      · intro hxs
        exact ih (y :: seen) x hx' (List.mem_cons_of_mem _ hxs)

theorem dedupAcc_nodup (seen : List Str) (l : List Str) : (dedupAcc seen l).Nodup := by
  induction l generalizing seen with
  | nil => exact List.nodup_nil
  | cons y ys ih =>
    rw [dedupAcc]
    by_cases hy : y ∈ seen
    · rw [if_pos hy]
      exact ih seen
    · rw [if_neg hy]
      refine List.Nodup.cons ?_ (ih (y :: seen))
      intro hmem
      exact dedupAcc_not_mem_seen (y :: seen) ys y hmem (List.mem_cons_self _ _)

/-- C9: link extraction on the spec's concrete example, plus: the result
never holds duplicates or an empty target, and it is a subsequence of the
scan (first-seen order preserved). -/
theorem c9_extract_links (body : Str) :
    extractLinks (("[[A]] appears twice [[A]]. Also [[]].").data) = [("A").data] ∧
      (extractLinks body).Nodup ∧ [] ∉ extractLinks body ∧
      (extractLinks body).Sublist
        ((scanLinks body.length body).filter fun t => !(decide (t = []))) := by
  refine ⟨by decide, dedupAcc_nodup _ _, ?_, dedupAcc_sublist _ _⟩
  intro hmem
  have hsub := dedupAcc_sublist []
    ((scanLinks body.length body).filter fun t => !(decide (t = [])))
  have hm : ([] : Str) ∈ (scanLinks body.length body).filter fun t => !(decide (t = [])) :=
    hsub.subset hmem
  have := List.of_mem_filter hm
  simp at this

/-! ## Session state machine claims (C3, C10) -/

/-- C10: a successful `openNote` installs the freshly loaded note, resets
the per-note AI conversation history to empty and enters the Viewer state;
a failed load leaves the history, the current note and the state unchanged. -/
theorem c10_open_note_resets_history (a : AppModel) (fs : FS) (note : Note) :
    (∀ loaded, storeLoad fs a.dir note.id = .ok loaded →
      openNote a fs note =
        { a with current := some loaded, aiHistory := [], state := .viewer }) ∧
      (∀ e, storeLoad fs a.dir note.id = .error e →
        (openNote a fs note).aiHistory = a.aiHistory ∧
          (openNote a fs note).current = a.current ∧
          (openNote a fs note).state = a.state) := by
  constructor
  · intro loaded h
    unfold openNote
    rw [h]
  · intro e h
    unfold openNote
    rw [h]
    exact ⟨rfl, rfl, rfl⟩

def sampleNote : Note :=
  { id := ("alpha").data, title := ("Alpha").data, tags := [],
    created := ⟨2024, 1, 1, 0, 0, 0⟩, updated := ⟨2024, 1, 1, 0, 0, 0⟩,
    body := [], raw := [], filename := ("v/alpha.md").data }

def sampleFs : FS :=
  [(mdPath (("v").data) (("alpha").data), ⟨[], ⟨2024, 1, 1, 0, 0, 0⟩, false, true⟩)]

def sampleApp : AppModel :=
  { state := .confirmDelete, dir := ("v").data, allNotes := [sampleNote],
    filtered := [sampleNote], cursor := 0, current := none, aiHistory := [],
    deleteTarget := some sampleNote, statusMsg := [], statusIsError := false }

/-- C3 counterexample: with a pending delete target, the delete key `d`
does not cancel back to the List state — the handler ignores it and the
session stays in ConfirmDelete with nothing changed. -/
theorem c3_confirm_delete_counterexample :
    (updateConfirmDelete sampleApp sampleFs (("d").data)).1.state = AppState.confirmDelete ∧
      ¬(updateConfirmDelete sampleApp sampleFs (("d").data)).1.state = AppState.list ∧
      updateConfirmDelete sampleApp sampleFs (("d").data) = (sampleApp, sampleFs, false) := by
  decide

/-- C3 amended: only `y`, `Y` or `enter` commits the deletion and triggers
the repository reload; the cancel keys `n`, `N`, `esc`, `q` return to the
List state clearing the target, with no deletion and no reload; every other
key (the delete key `d` included) leaves the model, the storage and the
state entirely unchanged. -/
theorem c3_confirm_delete_amended (a : AppModel) (fs : FS) (key : Str) :
    (key = ("y").data ∨ key = ("Y").data ∨ key = ("enter").data →
      (updateConfirmDelete a fs key).2.2 = true ∧
        (updateConfirmDelete a fs key).1.state = AppState.list ∧
        (∀ t, a.deleteTarget = some t → fsExists fs (mdPath a.dir t.id) = true →
          (updateConfirmDelete a fs key).2.1 = fsRemove fs (mdPath a.dir t.id))) ∧
      (¬(key = ("y").data ∨ key = ("Y").data ∨ key = ("enter").data) →
        (key = ("n").data ∨ key = ("N").data ∨ key = ("esc").data ∨ key = ("q").data →
          updateConfirmDelete a fs key =
            ({ a with deleteTarget := none, state := .list }, fs, false)) ∧
          (¬(key = ("n").data ∨ key = ("N").data ∨ key = ("esc").data ∨ key = ("q").data) →
            updateConfirmDelete a fs key = (a, fs, false))) := by
  constructor
  · intro haff
    unfold updateConfirmDelete
    rw [if_pos haff]
    split
    · rename_i target heq
      split
      · rename_i e heq2
        refine ⟨rfl, rfl, ?_⟩
        intro t ht hex
        rw [heq, Option.some.injEq] at ht
        subst ht
        have hok : storeDelete fs a.dir target.id =
            Except.ok (fsRemove fs (mdPath a.dir target.id)) := by
          unfold storeDelete
          rw [hex]
          simp
        rw [hok] at heq2
        cases heq2
      · rename_i fs' heq2
        refine ⟨rfl, rfl, ?_⟩
        intro t ht hex
        rw [heq, Option.some.injEq] at ht
        subst ht
        have hok : storeDelete fs a.dir target.id =
            Except.ok (fsRemove fs (mdPath a.dir target.id)) := by
          unfold storeDelete
          rw [hex]
          simp
        rw [hok] at heq2
        cases heq2
        rfl
    · rename_i heq
      refine ⟨rfl, rfl, ?_⟩
      intro t ht hex
      rw [heq] at ht
      cases ht
  · intro haff
    unfold updateConfirmDelete
    rw [if_neg haff]
    constructor
    · intro hcan
      rw [if_pos hcan]
    · intro hcan
      rw [if_neg hcan]

/-! ## Identity assignment (C6) and the daily note (C2) -/

theorem collapseDashesAux_eq_self :
    ∀ (fuel : Nat) (s : Str), noPair dashPair s = true → collapseDashesAux fuel s = s := by
  intro fuel
  induction fuel with
  | zero =>
    intro s _
    cases s <;> rfl
  | succ f ih =>
    intro s h
    rcases s with _ | ⟨c, _ | ⟨d, rest⟩⟩
    · rfl
    · rfl
    · simp only [noPair, Bool.and_eq_true, Bool.not_eq_true'] at h
      have hcd : ¬(c = '-' ∧ d = '-') := by
        intro hx
        simp [dashPair, hx.1, hx.2] at h
      show (if c = '-' ∧ d = '-' then collapseDashesAux f ('-' :: rest)
        else c :: collapseDashesAux f (d :: rest)) = c :: d :: rest
      rw [if_neg hcd, ih (d :: rest) h.2]

theorem collapseDashes_eq_self {s : Str} (h : noPair dashPair s = true) :
    collapseDashes s = s := collapseDashesAux_eq_self s.length s h

theorem fsExists_write_self {fs : FS} {p c : Str} {t : DateTime} :
    fsExists (fsWrite fs p c t) p = true := by
  unfold fsExists
  rw [fsFind?_write_self]
  rfl

theorem fsExists_write_ne {fs : FS} {p q c : Str} {t : DateTime} (h : ¬q = p) :
    fsExists (fsWrite fs p c t) q = fsExists fs q := by
  unfold fsExists
  rw [fsFind?_write_ne h]

/-- An untaken candidate is chosen immediately by the collision probe. -/
theorem probeId_free {fs : FS} {dir b : Str} (h : fsExists fs (mdPath dir b) = false) :
    probeId fs dir b = b := by
  unfold probeId probeGo
  rw [h]
  simp

/-- A taken base with a free `-2` candidate probes to `base-2`. -/
theorem probeId_second {fs : FS} {dir b : Str}
    (h1 : fsExists fs (mdPath dir b) = true)
    (h2 : fsExists fs (mdPath dir (b ++ '-' :: ['2'])) = false) :
    probeId fs dir b = b ++ '-' :: ['2'] := by
  have hne : fs ≠ [] := by
    intro hcontra
    rw [hcontra] at h1
    simp [fsExists, fsFind?] at h1
  have hnat : natToChars 2 = ['2'] := by decide
  obtain ⟨e, fs', rfl⟩ : ∃ e fs', fs = e :: fs' := by
    cases fs with
    | nil => exact absurd rfl hne
    | cons e fs' => exact ⟨e, fs', rfl⟩
  unfold probeId
  simp only [List.length_cons]
  rw [probeGo, if_pos h1, hnat, probeGo, if_neg (by rw [h2]; simp)]

theorem storeCreate_spec (fs : FS) (dir title : Str) (tags : List Str) (now : DateTime) :
    (storeCreate fs dir title tags now).1.id = probeId fs dir (slugify title now) ∧
      (storeCreate fs dir title tags now).1.filename =
        mdPath dir (probeId fs dir (slugify title now)) ∧
      ∃ content, (storeCreate fs dir title tags now).2 =
        fsWrite fs (mdPath dir (probeId fs dir (slugify title now))) content now :=
  ⟨rfl, rfl, ⟨_, rfl⟩⟩

theorem slugify_of_core_ne_nil (title : Str) (now : DateTime)
    (h : collapseDashes (trimCut ['-'] (slugChars (title.map toLowerChar))) ≠ []) :
    slugify title now = collapseDashes (trimCut ['-'] (slugChars (title.map toLowerChar))) := by
  unfold slugify
  rw [if_neg h]

theorem mdPath_len_ne {dir x y : Str} (h : ¬x.length = y.length) :
    ¬mdPath dir x = mdPath dir y := by
  intro he
  have := congrArg List.length he
  simp [mdPath, joinPath] at this
  omega

/-- C6: creating two notes with the same title yields the slug, then the
slug with the deterministic `-2` suffix — two distinct ids, chosen by
probing `slug`, `slug-2`, … for the first unused file. -/
theorem c6_title_collision (fs : FS) (dir title : Str) (tags1 tags2 : List Str)
    (now1 now2 : DateTime)
    (hslug : collapseDashes (trimCut ['-'] (slugChars (title.map toLowerChar))) ≠ [])
    (h1 : fsExists fs (mdPath dir
      (collapseDashes (trimCut ['-'] (slugChars (title.map toLowerChar))))) = false)
    (h2 : fsExists fs (mdPath dir
      (collapseDashes (trimCut ['-'] (slugChars (title.map toLowerChar)))
        ++ '-' :: ['2'])) = false) :
    (storeCreate fs dir title tags1 now1).1.id =
        collapseDashes (trimCut ['-'] (slugChars (title.map toLowerChar))) ∧
      (storeCreate (storeCreate fs dir title tags1 now1).2 dir title tags2 now2).1.id =
        collapseDashes (trimCut ['-'] (slugChars (title.map toLowerChar))) ++ '-' :: ['2'] ∧
      ¬(storeCreate fs dir title tags1 now1).1.id =
        (storeCreate (storeCreate fs dir title tags1 now1).2 dir title tags2 now2).1.id := by
  have hcore1 := slugify_of_core_ne_nil title now1 hslug
  have hcore2 := slugify_of_core_ne_nil title now2 hslug
  have hid1 : (storeCreate fs dir title tags1 now1).1.id =
      collapseDashes (trimCut ['-'] (slugChars (title.map toLowerChar))) := by
    rw [(storeCreate_spec fs dir title tags1 now1).1, hcore1, probeId_free h1]
  obtain ⟨content, hfs1⟩ := (storeCreate_spec fs dir title tags1 now1).2.2
  rw [hcore1, probeId_free h1] at hfs1
  have hex1 : fsExists (storeCreate fs dir title tags1 now1).2 (mdPath dir
      (collapseDashes (trimCut ['-'] (slugChars (title.map toLowerChar))))) = true := by
    rw [hfs1]
    exact fsExists_write_self
  have hex2 : fsExists (storeCreate fs dir title tags1 now1).2 (mdPath dir
      (collapseDashes (trimCut ['-'] (slugChars (title.map toLowerChar)))
        ++ '-' :: ['2'])) = false := by
    rw [hfs1, fsExists_write_ne (mdPath_len_ne (by simp))]
    exact h2
  have hid2 : (storeCreate (storeCreate fs dir title tags1 now1).2 dir title tags2 now2).1.id =
      collapseDashes (trimCut ['-'] (slugChars (title.map toLowerChar))) ++ '-' :: ['2'] := by
    rw [(storeCreate_spec _ dir title tags2 now2).1, hcore2, probeId_second hex1 hex2]
  refine ⟨hid1, hid2, ?_⟩
  rw [hid1, hid2]
  intro he
  have := congrArg List.length he
  simp at this

/-- Witness for C6 at a concrete store. -/
theorem c6_title_collision_witness :
    (collapseDashes (trimCut ['-'] (slugChars ((("Hello World").data).map toLowerChar))) ≠ [] ∧
      fsExists [] (mdPath (("v").data)
        (collapseDashes (trimCut ['-'] (slugChars ((("Hello World").data).map toLowerChar)))))
        = false) ∧
    (storeCreate [] (("v").data) (("Hello World").data) [] ⟨2024, 1, 1, 0, 0, 0⟩).1.id =
        collapseDashes (trimCut ['-'] (slugChars ((("Hello World").data).map toLowerChar))) ∧
      (storeCreate (storeCreate [] (("v").data) (("Hello World").data) []
          ⟨2024, 1, 1, 0, 0, 0⟩).2 (("v").data) (("Hello World").data) []
          ⟨2024, 1, 1, 0, 0, 2⟩).1.id =
        collapseDashes (trimCut ['-'] (slugChars ((("Hello World").data).map toLowerChar)))
          ++ '-' :: ['2'] ∧
      ¬(storeCreate [] (("v").data) (("Hello World").data) [] ⟨2024, 1, 1, 0, 0, 0⟩).1.id =
        (storeCreate (storeCreate [] (("v").data) (("Hello World").data) []
          ⟨2024, 1, 1, 0, 0, 0⟩).2 (("v").data) (("Hello World").data) []
          ⟨2024, 1, 1, 0, 0, 2⟩).1.id :=
  ⟨⟨by decide, by decide⟩,
    c6_title_collision [] (("v").data) (("Hello World").data) [] [] ⟨2024, 1, 1, 0, 0, 0⟩
      ⟨2024, 1, 1, 0, 0, 2⟩ (by decide) (by decide) (by decide)⟩

theorem splitChar_ne_nil (sep : Char) (s : Str) : splitChar sep s ≠ [] := by
  induction s with
  | nil => simp [splitChar]
  | cons c r ih =>
    rw [splitChar]
    by_cases hc : c = sep
    · rw [if_pos hc]
      simp
    · rw [if_neg hc]
      cases hsp : splitChar sep r with
      | nil => exact absurd hsp ih
      | cons g gs => simp

/-- Splitting distributes over a separator, with no side condition. -/
theorem splitChar_append_sep (sep : Char) (b : Str) :
    ∀ a : Str, splitChar sep (a ++ sep :: b) = splitChar sep a ++ splitChar sep b := by
  intro a
  induction a with
  | nil =>
    have h1 : splitChar sep (sep :: b) = [] :: splitChar sep b := by
      rw [splitChar, if_pos rfl]
    rw [List.nil_append, h1]
    rfl
  | cons c r ih =>
    have h1 : splitChar sep (c :: (r ++ sep :: b)) =
        if c = sep then [] :: splitChar sep (r ++ sep :: b)
        else match splitChar sep (r ++ sep :: b) with
          | [] => [[c]]
          | g :: gs => (c :: g) :: gs := by
      rw [splitChar]
    have h2 : splitChar sep (c :: r) =
        if c = sep then [] :: splitChar sep r
        else match splitChar sep r with
          | [] => [[c]]
          | g :: gs => (c :: g) :: gs := by
      rw [splitChar]
    rw [List.cons_append, h1, h2]
    by_cases hc : c = sep
    · rw [if_pos hc, if_pos hc, ih]
      rfl
    · rw [if_neg hc, if_neg hc, ih]
      cases hsp : splitChar sep r with
      | nil => exact absurd hsp (splitChar_ne_nil sep r)
      | cons g gs => rfl

/-- `filepath.Base` of the store's own paths recovers the file name. -/
theorem baseName_mdPath {dir id : Str} (h : ∀ c ∈ id, ¬c = '/') :
    baseName (mdPath dir id) = id ++ (".md").data := by
  have hX : '/' ∉ id ++ (".md").data := by
    intro hmem
    rcases List.mem_append.mp hmem with h1 | h2
    · exact h '/' h1 rfl
    · exact absurd h2 (by decide)
  unfold baseName mdPath joinPath
  rw [splitChar_append_sep, splitChar_of_not_mem hX, List.getLastD_concat]

theorem trimSuffixStr_append_suffix (x : Str) :
    trimSuffixStr (x ++ (".md").data) ((".md").data) = x := by
  unfold trimSuffixStr
  rw [if_pos (List.isSuffixOf_iff_suffix.mpr (List.suffix_append _ _)),
    List.length_append, Nat.add_sub_cancel, List.take_left]

/-- Reading back the just-written file. -/
theorem loadFile_write_self {fs : FS} {path content : Str} {now : DateTime} :
    loadFile (fsWrite fs path content now) path =
      .ok (noteFromRaw (trimSuffixStr (baseName path) ((".md").data)) path content now) := by
  unfold loadFile
  rw [fsFind?_write_self]
  rfl

theorem slugChars_keep {c : Char} (h : ('a' ≤ c ∧ c ≤ 'z') ∨ ('0' ≤ c ∧ c ≤ '9'))
    (rest : Str) : slugChars (c :: rest) = c :: slugChars rest := by
  rw [slugChars, if_pos h]

theorem slugChars_sep {c : Char} (h1 : ¬(('a' ≤ c ∧ c ≤ 'z') ∨ ('0' ≤ c ∧ c ≤ '9')))
    (h2 : c = ' ' ∨ c = '-' ∨ c = '_') (rest : Str) :
    slugChars (c :: rest) = '-' :: slugChars rest := by
  rw [slugChars, if_neg h1, if_pos h2]

theorem dashPair_left {c d : Char} (h : ¬c = '-') : dashPair c d = false := by
  simp [dashPair, h]

theorem dashPair_right {c d : Char} (h : ¬d = '-') : dashPair c d = false := by
  simp [dashPair, h]

/-- The slug of a daily-note title is its lowercase dashed form: `slugify`
keeps the digits and dashes of the date and maps the single space to a
dash, so `"Daily YYYY-MM-DD"` slugs to `"daily-YYYY-MM-DD"`. -/
theorem slug_daily (t : DateTime) (hv : t.Valid) :
    collapseDashes (trimCut ['-']
      (slugChars ((("Daily ").data ++ formatDateOnly t).map toLowerChar)))
      = ("daily-").data ++ formatDateOnly t := by
  obtain ⟨hy9, hm1, hm2, hd1, hd2, -, -, -⟩ := hv
  have hdle : t.day ≤ 31 := le_trans hd2 (daysInMonth_le t.year t.month)
  have b1 : t.year / 1000 < 10 := by omega
  have b2 : t.year / 100 % 10 < 10 := by omega
  have b3 : t.year / 10 % 10 < 10 := by omega
  have b4 : t.year % 10 < 10 := by omega
  have b5 : t.month / 10 < 10 := by omega
  have b6 : t.month % 10 < 10 := by omega
  have b7 : t.day / 10 < 10 := by omega
  have b8 : t.day % 10 < 10 := by omega
  have hfd : formatDateOnly t = [digitChar (t.year / 1000), digitChar (t.year / 100 % 10),
      digitChar (t.year / 10 % 10), digitChar (t.year % 10), '-', digitChar (t.month / 10),
      digitChar (t.month % 10), '-', digitChar (t.day / 10), digitChar (t.day % 10)] := rfl
  have hpre : ((("Daily ").data).map toLowerChar) = ['d', 'a', 'i', 'l', 'y', ' '] := by decide
  have hdash : toLowerChar '-' = '-' := by decide
  have hmap : ((("Daily ").data ++ formatDateOnly t).map toLowerChar) =
      'd' :: 'a' :: 'i' :: 'l' :: 'y' :: ' ' :: formatDateOnly t := by
    rw [hfd, List.map_append, hpre]
    simp only [List.map_cons, List.map_nil]
    rw [digitChar_lower _ b1, digitChar_lower _ b2, digitChar_lower _ b3, digitChar_lower _ b4,
      digitChar_lower _ b5, digitChar_lower _ b6, digitChar_lower _ b7, digitChar_lower _ b8,
      hdash]
    rfl
  rw [hmap, hfd]
  rw [slugChars_keep (c := 'd') (by decide), slugChars_keep (c := 'a') (by decide),
    slugChars_keep (c := 'i') (by decide), slugChars_keep (c := 'l') (by decide),
    slugChars_keep (c := 'y') (by decide), slugChars_sep (c := ' ') (by decide) (by decide),
    slugChars_keep (digitChar_kept _ b1), slugChars_keep (digitChar_kept _ b2),
    slugChars_keep (digitChar_kept _ b3), slugChars_keep (digitChar_kept _ b4),
    slugChars_sep (c := '-') (by decide) (by decide),
    slugChars_keep (digitChar_kept _ b5), slugChars_keep (digitChar_kept _ b6),
    slugChars_sep (c := '-') (by decide) (by decide),
    slugChars_keep (digitChar_kept _ b7), slugChars_keep (digitChar_kept _ b8),
    show slugChars [] = [] from rfl]
  have n1 : ¬digitChar (t.year / 1000) = '-' := (digit_facts _ b1).2.2.2.1
  have n2 : ¬digitChar (t.year / 100 % 10) = '-' := (digit_facts _ b2).2.2.2.1
  have n3 : ¬digitChar (t.year / 10 % 10) = '-' := (digit_facts _ b3).2.2.2.1
  have n4 : ¬digitChar (t.year % 10) = '-' := (digit_facts _ b4).2.2.2.1
  have n5 : ¬digitChar (t.month / 10) = '-' := (digit_facts _ b5).2.2.2.1
  have n6 : ¬digitChar (t.month % 10) = '-' := (digit_facts _ b6).2.2.2.1
  have n7 : ¬digitChar (t.day / 10) = '-' := (digit_facts _ b7).2.2.2.1
  have n8 : ¬digitChar (t.day % 10) = '-' := (digit_facts _ b8).2.2.2.1
  set x1 := digitChar (t.year / 1000) with hx1
  set x2 := digitChar (t.year / 100 % 10) with hx2
  set x3 := digitChar (t.year / 10 % 10) with hx3
  set x4 := digitChar (t.year % 10) with hx4
  set x5 := digitChar (t.month / 10) with hx5
  set x6 := digitChar (t.month % 10) with hx6
  set x7 := digitChar (t.day / 10) with hx7
  set x8 := digitChar (t.day % 10) with hx8
  have htrim : trimCut ['-'] ('d' :: 'a' :: 'i' :: 'l' :: 'y' :: '-' ::
      x1 :: x2 :: x3 :: x4 :: '-' :: x5 :: x6 :: '-' :: x7 :: x8 :: []) =
      'd' :: 'a' :: 'i' :: 'l' :: 'y' :: '-' ::
      x1 :: x2 :: x3 :: x4 :: '-' :: x5 :: x6 :: '-' :: x7 :: x8 :: [] := by
    unfold trimCut
    refine trimLR_eq_self (fun c hc => ?_) (fun c hc => ?_)
    · rw [List.head?_cons] at hc
      injection hc with h
      subst h
      decide
    · have hconcat : ('d' :: 'a' :: 'i' :: 'l' :: 'y' :: '-' ::
          x1 :: x2 :: x3 :: x4 :: '-' :: x5 :: x6 :: '-' :: x7 :: x8 :: []) =
          ('d' :: 'a' :: 'i' :: 'l' :: 'y' :: '-' ::
            x1 :: x2 :: x3 :: x4 :: '-' :: x5 :: x6 :: '-' :: x7 :: []) ++ [x8] := rfl
      rw [hconcat, List.getLast?_concat] at hc
      injection hc with h
      subst h
      simp [n8]
  rw [htrim]
  have hnp : noPair dashPair ('d' :: 'a' :: 'i' :: 'l' :: 'y' :: '-' ::
      x1 :: x2 :: x3 :: x4 :: '-' :: x5 :: x6 :: '-' :: x7 :: x8 :: []) = true := by
    refine noPair_cons_cons (by decide) ?_
    refine noPair_cons_cons (by decide) ?_
    refine noPair_cons_cons (by decide) ?_
    refine noPair_cons_cons (by decide) ?_
    refine noPair_cons_cons (by decide) ?_
    refine noPair_cons_cons (dashPair_right n1) ?_
    refine noPair_cons_cons (dashPair_left n1) ?_
    refine noPair_cons_cons (dashPair_left n2) ?_
    refine noPair_cons_cons (dashPair_left n3) ?_
    refine noPair_cons_cons (dashPair_left n4) ?_
    refine noPair_cons_cons (dashPair_right n5) ?_
    refine noPair_cons_cons (dashPair_left n5) ?_
    refine noPair_cons_cons (dashPair_left n6) ?_
    refine noPair_cons_cons (dashPair_right n7) ?_
    refine noPair_cons_cons (dashPair_left n7) ?_
    rfl
  rw [collapseDashes_eq_self hnp]
  rfl

/-- No character of a daily id is a path separator. -/
theorem dailyId_no_slash (t : DateTime) (hv : t.Valid) : ∀ c ∈ dailyId t, ¬c = '/' := by
  obtain ⟨hy9, hm1, hm2, hd1, hd2, -, -, -⟩ := hv
  have hdle : t.day ≤ 31 := le_trans hd2 (daysInMonth_le t.year t.month)
  have b1 : t.year / 1000 < 10 := by omega
  have b2 : t.year / 100 % 10 < 10 := by omega
  have b3 : t.year / 10 % 10 < 10 := by omega
  have b4 : t.year % 10 < 10 := by omega
  have b5 : t.month / 10 < 10 := by omega
  have b6 : t.month % 10 < 10 := by omega
  have b7 : t.day / 10 < 10 := by omega
  have b8 : t.day % 10 < 10 := by omega
  intro c hc
  have hflat : dailyId t = 'd' :: 'a' :: 'i' :: 'l' :: 'y' :: '-' ::
      digitChar (t.year / 1000) :: digitChar (t.year / 100 % 10) ::
      digitChar (t.year / 10 % 10) :: digitChar (t.year % 10) :: '-' ::
      digitChar (t.month / 10) :: digitChar (t.month % 10) :: '-' ::
      digitChar (t.day / 10) :: digitChar (t.day % 10) :: [] := rfl
  rw [hflat] at hc
  simp only [List.mem_cons, List.not_mem_nil, or_false] at hc
  rcases hc with rfl | rfl | rfl | rfl | rfl | rfl | rfl | rfl | rfl | rfl | rfl | rfl | rfl
    | rfl | rfl | rfl
  · decide
  · decide
  · decide
  · decide
  · decide
  · decide
  · exact (digit_facts _ b1).2.2.2.2.2.2.1
  · exact (digit_facts _ b2).2.2.2.2.2.2.1
  · exact (digit_facts _ b3).2.2.2.2.2.2.1
  · exact (digit_facts _ b4).2.2.2.2.2.2.1
  · decide
  · exact (digit_facts _ b5).2.2.2.2.2.2.1
  · exact (digit_facts _ b6).2.2.2.2.2.2.1
  · decide
  · exact (digit_facts _ b7).2.2.2.2.2.2.1
  · exact (digit_facts _ b8).2.2.2.2.2.2.1

/-- C2: `CreateDaily` is idempotent within a calendar date.  When no daily
file exists, the first call creates the note with id `daily-` plus the ISO
date; a second call at any time on the same date finds the file, loads the
existing note (same id) and returns the storage unchanged — no second file
and no modification of the first. -/
theorem c2_daily_idempotent (fs : FS) (dir : Str) (now1 now2 : DateTime)
    (hv : now1.Valid)
    (hy : now2.year = now1.year) (hmo : now2.month = now1.month) (hd : now2.day = now1.day)
    (hfree : fsExists fs (mdPath dir (dailyId now1)) = false) :
    ∃ n1 fs1 n2,
      storeCreateDaily fs dir now1 = .ok (n1, fs1) ∧
      n1.id = dailyId now1 ∧
      storeCreateDaily fs1 dir now2 = .ok (n2, fs1) ∧
      n2.id = dailyId now1 := by
  have hdd : dailyId now2 = dailyId now1 := by
    unfold dailyId formatDateOnly pad4 pad2
    rw [hy, hmo, hd]
  have hcore := slug_daily now1 hv
  have hcore_ne : collapseDashes (trimCut ['-']
      (slugChars ((("Daily ").data ++ formatDateOnly now1).map toLowerChar))) ≠ [] := by
    rw [hcore]
    intro hnil
    have hlen := congrArg List.length hnil
    rw [List.length_append, List.length_nil] at hlen
    have h6 : (("daily-").data).length = 6 := rfl
    rw [h6] at hlen
    omega
  have hslug1 : slugify (("Daily ").data ++ formatDateOnly now1) now1 = dailyId now1 := by
    rw [slugify_of_core_ne_nil _ now1 hcore_ne, hcore]
    rfl
  obtain ⟨hid1, -, content, hfs1⟩ :=
    storeCreate_spec fs dir (("Daily ").data ++ formatDateOnly now1) [("daily").data] now1
  rw [hslug1, probeId_free hfree] at hid1
  rw [hslug1, probeId_free hfree] at hfs1
  have hfirst : storeCreateDaily fs dir now1 =
      .ok (storeCreate fs dir (("Daily ").data ++ formatDateOnly now1) [("daily").data] now1) := by
    unfold storeCreateDaily
    rw [if_neg (by simp [hfree])]
  have hsecond : storeCreateDaily
      ((storeCreate fs dir (("Daily ").data ++ formatDateOnly now1) [("daily").data] now1).2)
      dir now2 =
      .ok (noteFromRaw (trimSuffixStr (baseName (mdPath dir (dailyId now1))) ((".md").data))
        (mdPath dir (dailyId now1)) content now1,
        (storeCreate fs dir (("Daily ").data ++ formatDateOnly now1) [("daily").data] now1).2) := by
    unfold storeCreateDaily
    rw [hdd, hfs1, if_pos fsExists_write_self, loadFile_write_self]
    rfl
  have hn2 : (noteFromRaw (trimSuffixStr (baseName (mdPath dir (dailyId now1))) ((".md").data))
      (mdPath dir (dailyId now1)) content now1).id = dailyId now1 := by
    show trimSuffixStr (baseName (mdPath dir (dailyId now1))) ((".md").data) = dailyId now1
    rw [baseName_mdPath (dailyId_no_slash now1 hv), trimSuffixStr_append_suffix]
  exact ⟨_, _, _, hfirst, hid1, hsecond, hn2⟩

/-- Witness for C2 at a concrete date and empty store. -/
theorem c2_daily_idempotent_witness :
    (DateTime.Valid ⟨2024, 5, 17, 10, 0, 0⟩ ∧
      fsExists [] (mdPath (("v").data) (dailyId ⟨2024, 5, 17, 10, 0, 0⟩)) = false) ∧
    (∃ n1 fs1 n2,
      storeCreateDaily [] (("v").data) ⟨2024, 5, 17, 10, 0, 0⟩ = .ok (n1, fs1) ∧
      n1.id = dailyId ⟨2024, 5, 17, 10, 0, 0⟩ ∧
      storeCreateDaily fs1 (("v").data) ⟨2024, 5, 17, 23, 59, 59⟩ = .ok (n2, fs1) ∧
      n2.id = dailyId ⟨2024, 5, 17, 10, 0, 0⟩) :=
  ⟨⟨by decide, by decide⟩,
    c2_daily_idempotent [] (("v").data) ⟨2024, 5, 17, 10, 0, 0⟩ ⟨2024, 5, 17, 23, 59, 59⟩
      (by decide) rfl rfl rfl (by decide)⟩

end Grove
